import Mathlib

/-!
Verification of the ypbank_converter codec layer: a shallow embedding of the
Rust sources (`lib.rs`, `error.rs`, `bin_format.rs`, `csv_format.rs`,
`txt_format.rs`, `bin/comparer.rs`) with proofs about the canonical record
model, the three codecs and the diff engine.

Bytes are modelled as `Nat` values below 256; streams as `List Nat`.
Machine integers (`u64`, `u32`) are `Nat` with explicit `% 2^w` at the points
where the Rust code truncates (`as u32`, `to_be_bytes`).
-/

namespace Ypbank

/-- `error.rs`: the `YpbankError` enum.  `BinaryReadError` is constructed
without a payload in `bin_format.rs` (`read_n_bytes!`), so it carries none
here. -/
inductive YpbankError where
  | FileNotFound (file : String)
  | UnknownFormat (format : String)
  | CsvParseError (msg : String)
  | CsvUnexpectedValue (value : String)
  | TextFieldNotFound (field : String)
  | TextUnexpectedFieldValue (field value : String)
  | TextUnableToParse (line : String)
  | TextDuplicateField (field : String)
  | TextReadError (msg : String)
  | BinaryUnexpectedValue
  | BinaryReadError
  | BinaryDescriptionTooLong
  | BinaryRecordTooShort
  | WriteError
  deriving DecidableEq, Repr

instance {ε α : Type} [DecidableEq ε] [DecidableEq α] : DecidableEq (Except ε α) := fun
  | .error e1, .error e2 =>
    if h : e1 = e2 then isTrue (by rw [h]) else isFalse (by intro hh; cases hh; exact h rfl)
  | .error _, .ok _ => isFalse (by intro hh; cases hh)
  | .ok _, .error _ => isFalse (by intro hh; cases hh)
  | .ok a1, .ok a2 =>
    if h : a1 = a2 then isTrue (by rw [h]) else isFalse (by intro hh; cases hh; exact h rfl)

/-- `lib.rs`: the `RecordType` enum with its per-variant user-id fields. -/
inductive RecordType where
  | Deposit (to_user_id : Nat)
  | Withdrawal (from_user_id : Nat)
  | Transfer (from_user_id to_user_id : Nat)
  deriving DecidableEq, Repr

/-- `lib.rs`: the `RecordStatus` enum. -/
inductive RecordStatus where
  | Success
  | Failure
  | Pending
  deriving DecidableEq, Repr

/-- `lib.rs`: the canonical `Record` structure. -/
structure Record where
  id : Nat
  record_type : RecordType
  amount : Nat
  timestamp : Nat
  status : RecordStatus
  description : String
  deriving DecidableEq, Repr

/-- The user ids stored inside a `RecordType` variant fit in a `u64`. -/
def RecordType.u64ok : RecordType → Prop
  | .Deposit t => t < 2 ^ 64
  | .Withdrawal f => f < 2 ^ 64
  | .Transfer f t => f < 2 ^ 64 ∧ t < 2 ^ 64

instance : (rt : RecordType) → Decidable rt.u64ok
  | .Deposit _ => inferInstanceAs (Decidable (_ < _))
  | .Withdrawal _ => inferInstanceAs (Decidable (_ < _))
  | .Transfer _ _ => inferInstanceAs (Decidable (_ ∧ _))

/-- A record is representable by the Rust data model when every numeric field
fits in a `u64` (the Rust fields have type `u64`). -/
def Record.representable (r : Record) : Prop :=
  r.id < 2 ^ 64 ∧ r.amount < 2 ^ 64 ∧ r.timestamp < 2 ^ 64 ∧ r.record_type.u64ok

instance (r : Record) : Decidable r.representable :=
  inferInstanceAs (Decidable (_ ∧ _ ∧ _ ∧ _))

/-! ## Big-endian byte helpers (`u64::to_be_bytes`, `u32::from_be_bytes`) -/

/-- `n.to_be_bytes()` for a `w`-byte unsigned integer: the `w` big-endian bytes
of `n % 256^w`. -/
def natToBeBytes : Nat → Nat → List Nat
  | 0, _ => []
  | w + 1, n => natToBeBytes w (n / 256) ++ [n % 256]

/-- `uN::from_be_bytes`. -/
def natFromBeBytes (l : List Nat) : Nat :=
  l.foldl (fun acc b => acc * 256 + b) 0

@[simp] theorem natToBeBytes_length (w n : Nat) : (natToBeBytes w n).length = w := by
  induction w generalizing n with
  | zero => rfl
  | succ w ih => simp [natToBeBytes, ih]

theorem natFromBeBytes_append_foldl (l : List Nat) (acc : Nat) :
    l.foldl (fun acc b => acc * 256 + b) acc =
      acc * 256 ^ l.length + natFromBeBytes l := by
  induction l generalizing acc with
  | nil => simp [natFromBeBytes]
  | cons b t ih =>
    have h1 : natFromBeBytes (b :: t) = b * 256 ^ t.length + natFromBeBytes t := by
      simp only [natFromBeBytes, List.foldl_cons]
      rw [show 0 * 256 + b = b by ring]
      exact ih b
    simp only [List.foldl_cons, List.length_cons]
    rw [ih (acc * 256 + b), h1]
    ring

theorem natFromBeBytes_natToBeBytes (w n : Nat) :
    natFromBeBytes (natToBeBytes w n) = n % 256 ^ w := by
  induction w generalizing n with
  | zero => simp [natToBeBytes, natFromBeBytes, Nat.mod_one]
  | succ w ih =>
    have hsplit : natFromBeBytes (natToBeBytes (w + 1) n)
        = natFromBeBytes (natToBeBytes w (n / 256)) * 256 + n % 256 := by
      simp only [natToBeBytes, natFromBeBytes, List.foldl_append, List.foldl_cons,
        List.foldl_nil]
    rw [hsplit, ih]
    have h256 : (256 : Nat) ^ (w + 1) = 256 * 256 ^ w := by ring
    rw [h256, Nat.mod_mul]
    ring

theorem natFromBeBytes_lt (w n : Nat) :
    natFromBeBytes (natToBeBytes w n) < 256 ^ w := by
  rw [natFromBeBytes_natToBeBytes]
  exact Nat.mod_lt _ (Nat.pow_pos (by norm_num))

/-! ## UTF-8 (Rust `String` stores UTF-8 bytes; `String::from_utf8` validates) -/

/-- UTF-8 encoding of one scalar value, as `String::as_bytes` would store it. -/
def utf8EncodeChar (c : Char) : List Nat :=
  let n := c.toNat
  if n < 0x80 then [n]
  else if n < 0x800 then [0xC0 + n / 64, 0x80 + n % 64]
  else if n < 0x10000 then
    [0xE0 + n / 4096, 0x80 + n / 64 % 64, 0x80 + n % 64]
  else
    [0xF0 + n / 262144, 0x80 + n / 4096 % 64, 0x80 + n / 64 % 64, 0x80 + n % 64]

/-- The UTF-8 bytes of a string (`String::as_bytes().to_vec()`). -/
def strToUtf8 (s : String) : List Nat :=
  s.data.flatMap utf8EncodeChar

/-- A UTF-8 continuation byte (`0x80..0xBF`). -/
def IsCont (b : Nat) : Prop := 0x80 ≤ b ∧ b < 0xC0

instance (b : Nat) : Decidable (IsCont b) := inferInstanceAs (Decidable (_ ∧ _))

/-- Admissible range for the byte following a 3- or 4-byte UTF-8 lead byte
(the Rust validation's special cases for `E0`, `ED`, `F0`, `F4`). -/
def Utf8Snd (b0 b1 : Nat) : Prop :=
  if b0 = 0xE0 then 0xA0 ≤ b1 ∧ b1 < 0xC0
  else if b0 = 0xED then 0x80 ≤ b1 ∧ b1 < 0xA0
  else if b0 = 0xF0 then 0x90 ≤ b1 ∧ b1 < 0xC0
  else if b0 = 0xF4 then 0x80 ≤ b1 ∧ b1 < 0x90
  else IsCont b1

instance (b0 b1 : Nat) : Decidable (Utf8Snd b0 b1) := by
  unfold Utf8Snd
  exact inferInstance

/-- Decode one UTF-8 scalar from lead byte `b0` and remaining bytes `rest`,
returning the character and the bytes left over.  The branch ranges
(`C2..DF`, `E0 A0..`, `ED ..9F`, `F0 90..`, `F4 ..8F`) are those of the Rust
standard library's UTF-8 validation. -/
def utf8DecodeOne (b0 : Nat) (rest : List Nat) : Option (Char × List Nat) :=
  if b0 < 0x80 then some (Char.ofNat b0, rest)
  else if b0 < 0xC2 then none
  else if b0 < 0xE0 then
    match rest with
    | b1 :: rest1 =>
      if IsCont b1 then some (Char.ofNat ((b0 - 0xC0) * 64 + (b1 - 0x80)), rest1)
      else none
    | [] => none
  else if b0 < 0xF0 then
    match rest with
    | b1 :: b2 :: rest2 =>
      if Utf8Snd b0 b1 ∧ IsCont b2 then
        some (Char.ofNat ((b0 - 0xE0) * 4096 + (b1 - 0x80) * 64 + (b2 - 0x80)), rest2)
      else none
    | _ => none
  else if b0 < 0xF5 then
    match rest with
    | b1 :: b2 :: b3 :: rest3 =>
      if Utf8Snd b0 b1 ∧ IsCont b2 ∧ IsCont b3 then
        some (Char.ofNat ((b0 - 0xF0) * 262144 + (b1 - 0x80) * 4096 +
          (b2 - 0x80) * 64 + (b3 - 0x80)), rest3)
      else none
    | _ => none
  else none

/-- If `utf8DecodeOne` succeeds, the leftover bytes are a suffix of `rest`. -/
theorem utf8DecodeOne_length {b0 : Nat} {rest rest2 : List Nat} {c : Char}
    (h : utf8DecodeOne b0 rest = some (c, rest2)) : rest2.length ≤ rest.length := by
  unfold utf8DecodeOne at h
  repeat' split at h
  all_goals simp only [Option.some.injEq, Prod.mk.injEq, reduceCtorEq] at h
  all_goals simp [← h.2]
  all_goals omega

/-- Fuelled worker for `utf8Decode`; each step consumes at least the lead
byte, so fuel `l.length` always suffices. -/
def utf8DecodeFuel : Nat → List Nat → Option (List Char)
  | _, [] => some []
  | 0, _ :: _ => none
  | fuel + 1, b0 :: rest =>
    (utf8DecodeOne b0 rest).bind fun p => (utf8DecodeFuel fuel p.2).map (p.1 :: ·)

/-- `String::from_utf8` as a total function: decode a byte list to the char
list it encodes, or `none` when the bytes are not valid UTF-8. -/
def utf8Decode (l : List Nat) : Option (List Char) :=
  utf8DecodeFuel l.length l

theorem utf8DecodeFuel_congr : ∀ (f1 f2 : Nat) (l : List Nat),
    l.length ≤ f1 → l.length ≤ f2 → utf8DecodeFuel f1 l = utf8DecodeFuel f2 l := by
  intro f1
  induction f1 with
  | zero =>
    intro f2 l h1 _
    have : l = [] := List.eq_nil_of_length_eq_zero (Nat.le_zero.mp h1)
    subst this
    cases f2 <;> rfl
  | succ f1 ih =>
    intro f2 l h1 h2
    cases l with
    | nil => cases f2 <;> rfl
    | cons b0 rest =>
      cases f2 with
      | zero => exact absurd h2 (by simp)
      | succ f2 =>
        show (utf8DecodeOne b0 rest).bind _ = (utf8DecodeOne b0 rest).bind _
        cases hone : utf8DecodeOne b0 rest with
        | none => rfl
        | some p =>
          have hlen := utf8DecodeOne_length
            (show utf8DecodeOne b0 rest = some (p.1, p.2) from by rw [hone])
          show (utf8DecodeFuel f1 p.2).map (p.1 :: ·) = (utf8DecodeFuel f2 p.2).map (p.1 :: ·)
          simp only [List.length_cons] at h1 h2
          rw [ih f2 p.2 (by omega) (by omega)]

theorem utf8Snd_of_threeByte (n : Nat) (h2 : ¬n < 0x800) (h3 : n < 0x10000)
    (hval : n < 0xd800 ∨ 0xe000 ≤ n ∧ n < 0x110000) :
    Utf8Snd (0xE0 + n / 4096) (0x80 + n / 64 % 64) := by
  unfold Utf8Snd
  by_cases he0 : 0xE0 + n / 4096 = 0xE0
  · rw [if_pos he0]; constructor <;> omega
  · rw [if_neg he0]
    by_cases hed : 0xE0 + n / 4096 = 0xED
    · rw [if_pos hed]
      constructor
      · omega
      · rcases hval with h | h <;> omega
    · rw [if_neg hed, if_neg (by omega), if_neg (by omega)]
      constructor <;> omega

theorem utf8Snd_of_fourByte (n : Nat) (h3 : ¬n < 0x10000) (h4 : n < 0x110000) :
    Utf8Snd (0xF0 + n / 262144) (0x80 + n / 4096 % 64) := by
  unfold Utf8Snd
  rw [if_neg (by omega), if_neg (by omega)]
  by_cases hf0 : 0xF0 + n / 262144 = 0xF0
  · rw [if_pos hf0]; constructor <;> omega
  · rw [if_neg hf0]
    by_cases hf4 : 0xF0 + n / 262144 = 0xF4
    · rw [if_pos hf4]; constructor <;> omega
    · rw [if_neg hf4]; constructor <;> omega

/-- `utf8DecodeOne` inverts `utf8EncodeChar`, leaving any appended bytes. -/
theorem utf8DecodeOne_encodeChar (c : Char) (rest : List Nat) :
    ∃ b0 bs, utf8EncodeChar c = b0 :: bs ∧
      utf8DecodeOne b0 (bs ++ rest) = some (c, rest) := by
  have hval : c.toNat < 0xd800 ∨ 0xe000 ≤ c.toNat ∧ c.toNat < 0x110000 := c.valid
  have hofn : Char.ofNat c.toNat = c := Char.ofNat_toNat c
  by_cases h1 : c.toNat < 0x80
  · refine ⟨c.toNat, [], by unfold utf8EncodeChar; rw [if_pos h1], ?_⟩
    unfold utf8DecodeOne
    rw [List.nil_append, if_pos h1, hofn]
  · by_cases h2 : c.toNat < 0x800
    · refine ⟨0xC0 + c.toNat / 64, [0x80 + c.toNat % 64],
        by unfold utf8EncodeChar; rw [if_neg h1, if_pos h2], ?_⟩
      unfold utf8DecodeOne
      simp only [List.cons_append, List.nil_append]
      rw [if_neg (by omega), if_neg (by omega), if_pos (by omega)]
      rw [if_pos (show IsCont (0x80 + c.toNat % 64) by constructor <;> omega)]
      rw [show (0xC0 + c.toNat / 64 - 0xC0) * 64 + (0x80 + c.toNat % 64 - 0x80)
        = c.toNat by omega, hofn]
    · by_cases h3 : c.toNat < 0x10000
      · refine ⟨0xE0 + c.toNat / 4096, [0x80 + c.toNat / 64 % 64, 0x80 + c.toNat % 64],
          by unfold utf8EncodeChar; rw [if_neg h1, if_neg h2, if_pos h3], ?_⟩
        unfold utf8DecodeOne
        simp only [List.cons_append, List.nil_append]
        rw [if_neg (by omega), if_neg (by omega), if_neg (by omega), if_pos (by omega)]
        rw [if_pos ⟨utf8Snd_of_threeByte c.toNat h2 h3 hval,
          show IsCont (0x80 + c.toNat % 64) by constructor <;> omega⟩]
        rw [show (0xE0 + c.toNat / 4096 - 0xE0) * 4096 + (0x80 + c.toNat / 64 % 64 - 0x80) * 64 +
          (0x80 + c.toNat % 64 - 0x80) = c.toNat by omega, hofn]
      · have h4 : c.toNat < 0x110000 := by rcases hval with h | h <;> omega
        refine ⟨0xF0 + c.toNat / 262144,
          [0x80 + c.toNat / 4096 % 64, 0x80 + c.toNat / 64 % 64, 0x80 + c.toNat % 64],
          by unfold utf8EncodeChar; rw [if_neg h1, if_neg h2, if_neg h3], ?_⟩
        unfold utf8DecodeOne
        simp only [List.cons_append, List.nil_append]
        rw [if_neg (by omega), if_neg (by omega), if_neg (by omega), if_neg (by omega),
          if_pos (by omega)]
        rw [if_pos ⟨utf8Snd_of_fourByte c.toNat h3 h4,
          show IsCont (0x80 + c.toNat / 64 % 64) by constructor <;> omega,
          show IsCont (0x80 + c.toNat % 64) by constructor <;> omega⟩]
        rw [show (0xF0 + c.toNat / 262144 - 0xF0) * 262144 +
          (0x80 + c.toNat / 4096 % 64 - 0x80) * 4096 +
          (0x80 + c.toNat / 64 % 64 - 0x80) * 64 + (0x80 + c.toNat % 64 - 0x80)
          = c.toNat by omega, hofn]

theorem utf8Decode_encodeChar_append (c : Char) (rest : List Nat) :
    utf8Decode (utf8EncodeChar c ++ rest) = (utf8Decode rest).map (c :: ·) := by
  obtain ⟨b0, bs, henc, hone⟩ := utf8DecodeOne_encodeChar c rest
  unfold utf8Decode
  rw [henc]
  have hlen : ((b0 :: bs) ++ rest).length = (bs ++ rest).length + 1 := by simp
  rw [hlen, List.cons_append]
  show (utf8DecodeOne b0 (bs ++ rest)).bind
    (fun p => (utf8DecodeFuel (bs ++ rest).length p.2).map (p.1 :: ·)) = _
  rw [hone]
  show (utf8DecodeFuel (bs ++ rest).length rest).map (c :: ·) = _
  rw [utf8DecodeFuel_congr (bs ++ rest).length rest.length rest (by simp) (le_refl _)]

/-- Decoding the UTF-8 bytes of a string recovers its characters. -/
theorem utf8Decode_strToUtf8 (s : String) : utf8Decode (strToUtf8 s) = some s.data := by
  rcases s with ⟨cs⟩
  show utf8Decode (cs.flatMap utf8EncodeChar) = some cs
  induction cs with
  | nil => rfl
  | cons c t ih =>
    rw [List.flatMap_cons, utf8Decode_encodeChar_append, ih]
    rfl

/-! ## Binary codec (`bin_format.rs`) -/

/-- `bin_format.rs`: the raw `BinRecord` with its byte-level fields. -/
structure BinRecord where
  id : List Nat
  record_type : Nat
  from_user_id : List Nat
  to_user_id : List Nat
  amount : List Nat
  timestamp : List Nat
  status : Nat
  description : List Nat
  deriving DecidableEq, Repr

/-- `BinRecord::HEADER`: the bytes of `b"YPBN"`. -/
def binHeader : List Nat := [0x59, 0x50, 0x42, 0x4E]

/-- `read_n_bytes!`: read exactly `n` bytes from the stream, failing with
`BinaryReadError` on a short read. -/
def readN (n : Nat) (s : List Nat) : Except YpbankError (List Nat × List Nat) :=
  if n ≤ s.length then .ok (s.take n, s.drop n) else .error .BinaryReadError

/-- One iteration of `BinRecordReader::read_all`'s loop: `ok none` when the
4-byte header read fails (the `Err(_) => break` arm), `BinaryUnexpectedValue`
when 4 bytes were read but do not match the magic, a `BinaryReadError` on any
short read inside the frame, and otherwise the parsed `BinRecord` plus the
remaining stream.  The 4-byte record-length field is read and discarded
(`_record_length`). -/
def readFrame (s : List Nat) : Except YpbankError (Option (BinRecord × List Nat)) :=
  if s.length < 4 then .ok none
  else if s.take 4 = binHeader then
    (readN 4 (s.drop 4)).bind fun _record_length_p =>
    (readN 8 _record_length_p.2).bind fun pid =>
    (readN 1 pid.2).bind fun prt =>
    (readN 8 prt.2).bind fun pfu =>
    (readN 8 pfu.2).bind fun ptu =>
    (readN 8 ptu.2).bind fun pam =>
    (readN 8 pam.2).bind fun pts =>
    (readN 1 pts.2).bind fun pst =>
    (readN 4 pst.2).bind fun pdl =>
    (readN (natFromBeBytes pdl.1) pdl.2).bind fun pd =>
    .ok (some ({ id := pid.1, record_type := prt.1.headD 0, from_user_id := pfu.1,
                 to_user_id := ptu.1, amount := pam.1, timestamp := pts.1,
                 status := pst.1.headD 0, description := pd.1 }, pd.2))
  else .error .BinaryUnexpectedValue

theorem exceptBind_ok {ε α β : Type} {x : Except ε α} {f : α → Except ε β} {b : β}
    (h : x.bind f = .ok b) : ∃ a, x = .ok a ∧ f a = .ok b := by
  cases x with
  | error e => exact absurd h (by simp [Except.bind])
  | ok a => exact ⟨a, rfl, h⟩

theorem readN_exact {n : Nat} (a b : List Nat) (h : a.length = n) :
    readN n (a ++ b) = .ok (a, b) := by
  unfold readN
  subst h
  rw [if_pos (by simp), List.take_left, List.drop_left]

theorem readN_ok_snd {n : Nat} {s : List Nat} {p : List Nat × List Nat}
    (h : readN n s = .ok p) : p.2.length + n = s.length := by
  unfold readN at h
  split at h
  · simp only [Except.ok.injEq] at h
    subst h
    simp only [List.length_drop]
    omega
  · exact absurd h (by simp)

/-- A successfully parsed frame consumes at least one byte. -/
theorem readFrame_some_length {s : List Nat} {br : BinRecord} {rest : List Nat}
    (h : readFrame s = .ok (some (br, rest))) : rest.length < s.length := by
  unfold readFrame at h
  split at h
  · simp at h
  · split at h
    · obtain ⟨p1, hp1, h⟩ := exceptBind_ok h
      obtain ⟨p2, hp2, h⟩ := exceptBind_ok h
      obtain ⟨p3, hp3, h⟩ := exceptBind_ok h
      obtain ⟨p4, hp4, h⟩ := exceptBind_ok h
      obtain ⟨p5, hp5, h⟩ := exceptBind_ok h
      obtain ⟨p6, hp6, h⟩ := exceptBind_ok h
      obtain ⟨p7, hp7, h⟩ := exceptBind_ok h
      obtain ⟨p8, hp8, h⟩ := exceptBind_ok h
      obtain ⟨p9, hp9, h⟩ := exceptBind_ok h
      obtain ⟨p10, hp10, h⟩ := exceptBind_ok h
      simp only [Except.ok.injEq, Option.some.injEq, Prod.mk.injEq] at h
      have e1 := readN_ok_snd hp1
      have e2 := readN_ok_snd hp2
      have e3 := readN_ok_snd hp3
      have e4 := readN_ok_snd hp4
      have e5 := readN_ok_snd hp5
      have e6 := readN_ok_snd hp6
      have e7 := readN_ok_snd hp7
      have e8 := readN_ok_snd hp8
      have e9 := readN_ok_snd hp9
      have e10 := readN_ok_snd hp10
      have hdrop : (s.drop 4).length = s.length - 4 := by simp
      have hrest : rest = p10.2 := h.2.symm
      subst hrest
      omega
    · exact absurd h (by simp)

/-- Fuelled worker for the `read_all` loop; each parsed frame consumes at
least one byte of the stream, so fuel `s.length + 1` always suffices. -/
def binReadLoopFuel : Nat → List Nat → Except YpbankError (List BinRecord)
  | 0, _ => .error .BinaryReadError
  | fuel + 1, s =>
    (readFrame s).bind fun res =>
      res.elim (Except.ok []) fun p => (binReadLoopFuel fuel p.2).map (p.1 :: ·)

/-- The frame-reading loop of `BinRecordReader::read_all`. -/
def binReadRecords (s : List Nat) : Except YpbankError (List BinRecord) :=
  binReadLoopFuel (s.length + 1) s

theorem binReadLoopFuel_congr : ∀ (f1 f2 : Nat) (s : List Nat),
    s.length < f1 → s.length < f2 → binReadLoopFuel f1 s = binReadLoopFuel f2 s := by
  intro f1
  induction f1 with
  | zero => intro f2 s h1 _; omega
  | succ f1 ih =>
    intro f2 s h1 h2
    cases f2 with
    | zero => omega
    | succ f2 =>
      show (readFrame s).bind _ = (readFrame s).bind _
      cases hframe : readFrame s with
      | error e => rfl
      | ok res =>
        cases res with
        | none => rfl
        | some p =>
          have hlen : p.2.length < s.length := readFrame_some_length
            (show readFrame s = .ok (some (p.1, p.2)) from by rw [hframe])
          show (binReadLoopFuel f1 p.2).map (p.1 :: ·) =
            (binReadLoopFuel f2 p.2).map (p.1 :: ·)
          rw [ih f2 p.2 (by omega) (by omega)]

/-- Unfolding equation for `binReadRecords` in terms of `readFrame`. -/
theorem binReadRecords_eq (s : List Nat) :
    binReadRecords s = (readFrame s).bind fun res =>
      res.elim (Except.ok []) fun p => (binReadRecords p.2).map (p.1 :: ·) := by
  show binReadLoopFuel (s.length + 1) s = _
  show (readFrame s).bind _ = _
  cases hframe : readFrame s with
  | error e => rfl
  | ok res =>
    cases res with
    | none => rfl
    | some p =>
      have hlen : p.2.length < s.length := readFrame_some_length
        (show readFrame s = .ok (some (p.1, p.2)) from by rw [hframe])
      show (binReadLoopFuel s.length p.2).map (p.1 :: ·) =
        (binReadLoopFuel (p.2.length + 1) p.2).map (p.1 :: ·)
      rw [binReadLoopFuel_congr s.length (p.2.length + 1) p.2 (by omega) (by omega)]

/-- `impl TryInto<Record> for BinRecord` (`bin_format.rs`): tag, status and
UTF-8 validation before the `Record` is constructed. -/
def binTryInto (br : BinRecord) : Except YpbankError Record :=
  ((match br.record_type with
    | 0 => .ok (RecordType.Deposit (natFromBeBytes br.to_user_id))
    | 1 => .ok (RecordType.Transfer (natFromBeBytes br.from_user_id)
        (natFromBeBytes br.to_user_id))
    | 2 => .ok (RecordType.Withdrawal (natFromBeBytes br.from_user_id))
    | _ => .error .BinaryUnexpectedValue : Except YpbankError RecordType)).bind
      fun record_type =>
  ((match br.status with
    | 0 => .ok RecordStatus.Success
    | 1 => .ok RecordStatus.Failure
    | 2 => .ok RecordStatus.Pending
    | _ => .error .BinaryUnexpectedValue : Except YpbankError RecordStatus)).bind
      fun status =>
  ((match utf8Decode br.description with
    | some cs => .ok (String.mk cs)
    | none => .error .BinaryUnexpectedValue : Except YpbankError String)).bind
      fun description =>
  .ok { id := natFromBeBytes br.id, record_type := record_type,
        amount := natFromBeBytes br.amount, timestamp := natFromBeBytes br.timestamp,
        status := status, description := description }

/-- `Result`-collecting map, as `.collect::<Result<Vec<_>, _>>()` does. -/
def exceptMapM {ε α β : Type} (f : α → Except ε β) : List α → Except ε (List β)
  | [] => .ok []
  | a :: t => (f a).bind fun b => (exceptMapM f t).map (b :: ·)

/-- `BinRecordReader::read_all`: parse all frames, then convert each
`BinRecord` into a `Record`. -/
def binDecode (s : List Nat) : Except YpbankError (List Record) :=
  (binReadRecords s).bind (exceptMapM binTryInto)

/-- The `(record_type, from_user_id, to_user_id)` tuple produced by the
`match value.record_type` in `impl From<&Record> for BinRecord`: absent user
ids are serialized as 0. -/
def recordTypeFlat : RecordType → Nat × Nat × Nat
  | .Deposit to_user_id => (0, 0, to_user_id)
  | .Withdrawal from_user_id => (2, from_user_id, 0)
  | .Transfer from_user_id to_user_id => (1, from_user_id, to_user_id)

/-- The status tag byte written by the binary encoder. -/
def statusTag : RecordStatus → Nat
  | .Success => 0
  | .Failure => 1
  | .Pending => 2

/-- `impl From<&Record> for BinRecord`. -/
def BinRecord.fromRecord (r : Record) : BinRecord :=
  { id := natToBeBytes 8 r.id
    record_type := (recordTypeFlat r.record_type).1
    from_user_id := natToBeBytes 8 (recordTypeFlat r.record_type).2.1
    to_user_id := natToBeBytes 8 (recordTypeFlat r.record_type).2.2
    amount := natToBeBytes 8 r.amount
    timestamp := natToBeBytes 8 r.timestamp
    status := statusTag r.status
    description := strToUtf8 r.description }

/-- The `buffer` assembled by `BinRecordWriter::write_all` for one record:
fixed fields, then the description length as `u32` big-endian (the `as u32`
truncation is the `% 2^32` inside `natToBeBytes`), then the raw bytes. -/
def binWriteBody (br : BinRecord) : List Nat :=
  br.id ++ [br.record_type] ++ br.from_user_id ++ br.to_user_id ++ br.amount ++
    br.timestamp ++ [br.status] ++ natToBeBytes 4 br.description.length ++ br.description

/-- One frame as written by `BinRecordWriter::write_all`: header, body length
as `u32` big-endian, body. -/
def binEncodeRecord (r : Record) : List Nat :=
  binHeader ++ natToBeBytes 4 (binWriteBody (BinRecord.fromRecord r)).length ++
    binWriteBody (BinRecord.fromRecord r)

/-- `BinRecordWriter::write_all` into an in-memory buffer. -/
def binEncode (records : List Record) : List Nat :=
  records.flatMap binEncodeRecord

theorem okBind {ε α β : Type} (a : α) (f : α → Except ε β) :
    (Except.ok (ε := ε) a).bind f = f a := rfl

/-- Parsing a well-segmented frame: the record-length field `lenb` is read and
discarded, the fixed fields land in the `BinRecord`, and the description is
taken according to the description-length field. -/
theorem readFrame_frame (lenb id8 fu tu am ts dn desc rest : List Nat) (tg st : Nat)
    (hlen : lenb.length = 4) (hid : id8.length = 8) (hfu : fu.length = 8)
    (htu : tu.length = 8) (ham : am.length = 8) (hts : ts.length = 8)
    (hdn : dn.length = 4) (hdesc : desc.length = natFromBeBytes dn) :
    readFrame (binHeader ++ (lenb ++ (id8 ++ ([tg] ++ (fu ++ (tu ++ (am ++ (ts ++
        ([st] ++ (dn ++ (desc ++ rest))))))))))) =
      .ok (some ({ id := id8, record_type := tg, from_user_id := fu, to_user_id := tu,
                   amount := am, timestamp := ts, status := st,
                   description := desc }, rest)) := by
  unfold readFrame
  rw [if_neg (by simp [binHeader]), if_pos (by rfl)]
  show (readN 4 (lenb ++ (id8 ++ ([tg] ++ (fu ++ (tu ++ (am ++ (ts ++ ([st] ++
    (dn ++ (desc ++ rest))))))))))).bind _ = _
  rw [readN_exact lenb _ hlen, okBind]
  dsimp only
  rw [readN_exact id8 _ hid, okBind]
  dsimp only
  rw [readN_exact (n := 1) [tg] _ rfl, okBind]
  dsimp only
  rw [readN_exact fu _ hfu, okBind]
  dsimp only
  rw [readN_exact tu _ htu, okBind]
  dsimp only
  rw [readN_exact am _ ham, okBind]
  dsimp only
  rw [readN_exact ts _ hts, okBind]
  dsimp only
  rw [readN_exact (n := 1) [st] _ rfl, okBind]
  dsimp only
  rw [readN_exact dn _ hdn, okBind]
  dsimp only
  rw [readN_exact desc rest hdesc, okBind]
  dsimp only [List.headD]

/-- Converting the encoder's `BinRecord` back recovers the record. -/
theorem binTryInto_fromRecord (r : Record) (hrep : r.representable) :
    binTryInto (BinRecord.fromRecord r) = .ok r := by
  obtain ⟨hid, ham, hts, hrt⟩ := hrep
  have h64 : (256 : Nat) ^ 8 = 2 ^ 64 := by norm_num
  have hfrom : ∀ n < 2 ^ 64, natFromBeBytes (natToBeBytes 8 n) = n := by
    intro n hn
    rw [natFromBeBytes_natToBeBytes, h64, Nat.mod_eq_of_lt hn]
  unfold binTryInto BinRecord.fromRecord
  cases hrtc : r.record_type with
  | Deposit to_user_id =>
    rw [hrtc] at hrt
    unfold RecordType.u64ok at hrt
    dsimp only [recordTypeFlat]
    rw [hfrom _ hrt, okBind]
    cases hst : r.status <;>
      · dsimp only [statusTag]
        rw [okBind, utf8Decode_strToUtf8, okBind, hfrom _ hid, hfrom _ ham, hfrom _ hts]
        exact congrArg Except.ok (by cases r; simp_all)
  | Withdrawal from_user_id =>
    rw [hrtc] at hrt
    unfold RecordType.u64ok at hrt
    dsimp only [recordTypeFlat]
    rw [hfrom _ hrt, okBind]
    cases hst : r.status <;>
      · dsimp only [statusTag]
        rw [okBind, utf8Decode_strToUtf8, okBind, hfrom _ hid, hfrom _ ham, hfrom _ hts]
        exact congrArg Except.ok (by cases r; simp_all)
  | Transfer from_user_id to_user_id =>
    rw [hrtc] at hrt
    unfold RecordType.u64ok at hrt
    dsimp only [recordTypeFlat]
    rw [hfrom _ hrt.1, hfrom _ hrt.2, okBind]
    cases hst : r.status <;>
      · dsimp only [statusTag]
        rw [okBind, utf8Decode_strToUtf8, okBind, hfrom _ hid, hfrom _ ham, hfrom _ hts]
        exact congrArg Except.ok (by cases r; simp_all)

/-- Reading back an encoded stream recovers the encoder's `BinRecord`s, as
long as every description's byte length fits the `u32` length field; up to
three stray trailing bytes make the header read fail and are discarded by the
`Err(_) => break` arm. -/
theorem binReadRecords_binEncode_extra (rs : List Record) (extra : List Nat)
    (h : ∀ r ∈ rs, (strToUtf8 r.description).length < 2 ^ 32)
    (hextra : extra.length < 4) :
    binReadRecords (binEncode rs ++ extra) = .ok (rs.map BinRecord.fromRecord) := by
  induction rs with
  | nil =>
    show binReadRecords ([] ++ extra) = .ok []
    rw [List.nil_append, binReadRecords_eq]
    unfold readFrame
    rw [if_pos hextra]
    rfl
  | cons r t ih =>
    have hdesc : (strToUtf8 r.description).length < 2 ^ 32 := h r (by simp)
    rw [binReadRecords_eq]
    have hfr : binEncode (r :: t) ++ extra = binHeader ++
        (natToBeBytes 4 (binWriteBody (BinRecord.fromRecord r)).length ++
        (natToBeBytes 8 r.id ++ ([(recordTypeFlat r.record_type).1] ++
        (natToBeBytes 8 (recordTypeFlat r.record_type).2.1 ++
        (natToBeBytes 8 (recordTypeFlat r.record_type).2.2 ++
        (natToBeBytes 8 r.amount ++ (natToBeBytes 8 r.timestamp ++
        ([statusTag r.status] ++ (natToBeBytes 4 (strToUtf8 r.description).length ++
        (strToUtf8 r.description ++ (binEncode t ++ extra))))))))))) := by
      show (binEncodeRecord r ++ binEncode t) ++ extra = _
      unfold binEncodeRecord binWriteBody BinRecord.fromRecord
      simp only [List.append_assoc]
    rw [hfr, readFrame_frame _ _ _ _ _ _ _ _ _ _ _
      (by simp) (by simp) (by simp) (by simp) (by simp) (by simp) (by simp)
      (by rw [natFromBeBytes_natToBeBytes]
          exact (Nat.mod_eq_of_lt (by simpa using hdesc)).symm),
      okBind]
    dsimp only [Option.elim]
    rw [ih (fun r hr => h r (by simp [hr]))]
    rfl

theorem binReadRecords_binEncode (rs : List Record)
    (h : ∀ r ∈ rs, (strToUtf8 r.description).length < 2 ^ 32) :
    binReadRecords (binEncode rs) = .ok (rs.map BinRecord.fromRecord) := by
  have := binReadRecords_binEncode_extra rs [] h (by norm_num)
  simpa using this

/-- Binary round trip with up to three stray trailing bytes: decoding recovers
the records, for representable records whose description byte length fits the
`u32` field. -/
theorem binDecode_binEncode_extra (rs : List Record) (extra : List Nat)
    (h : ∀ r ∈ rs, r.representable ∧ (strToUtf8 r.description).length < 2 ^ 32)
    (hextra : extra.length < 4) :
    binDecode (binEncode rs ++ extra) = .ok rs := by
  unfold binDecode
  rw [binReadRecords_binEncode_extra rs extra (fun r hr => (h r hr).2) hextra, okBind]
  induction rs with
  | nil => rfl
  | cons r t ih =>
    show (binTryInto (BinRecord.fromRecord r)).bind _ = _
    rw [binTryInto_fromRecord r (h r (by simp)).1, okBind,
      ih (fun r hr => h r (by simp [hr]))]
    rfl

/-- Binary round trip: decoding an encoded stream recovers the records, for
representable records whose description byte length fits the `u32` field. -/
theorem binDecode_binEncode (rs : List Record)
    (h : ∀ r ∈ rs, r.representable ∧ (strToUtf8 r.description).length < 2 ^ 32) :
    binDecode (binEncode rs) = .ok rs := by
  have := binDecode_binEncode_extra rs [] h (by norm_num)
  simpa using this

/-! ## Decimal integers (`u64::to_string`, `str::parse::<u64>`) -/

/-- Fuelled decimal digit emission; fuel `n + 1` always suffices. -/
def natDigitsFuel : Nat → Nat → List Char
  | 0, _ => []
  | fuel + 1, n =>
    if n < 10 then [Char.ofNat (48 + n)]
    else natDigitsFuel fuel (n / 10) ++ [Char.ofNat (48 + n % 10)]

/-- `u64::to_string`: decimal representation. -/
def natToStr (n : Nat) : String :=
  String.mk (natDigitsFuel (n + 1) n)

/-- `str::parse::<u64>()`: optional leading `+`, at least one ASCII digit,
value below `2^64` (overflow is a parse error). -/
def parseU64 (s : String) : Option Nat :=
  let ds := if s.data.head? = some '+' then s.data.tail else s.data
  if ds.isEmpty then none
  else if ds.all (fun c => decide (48 ≤ c.toNat ∧ c.toNat ≤ 57)) then
    let n := ds.foldl (fun acc c => acc * 10 + (c.toNat - 48)) 0
    if n < 2 ^ 64 then some n else none
  else none

theorem char_toNat_ofNat_small (n : Nat) (h : n < 0xd800) : (Char.ofNat n).toNat = n := by
  unfold Char.ofNat
  rw [dif_pos (Or.inl h)]
  rfl

/-- Every digit emitted by `natDigitsFuel` is an ASCII digit. -/
theorem natDigitsFuel_digits : ∀ (fuel n : Nat), n < fuel →
    ∀ c ∈ natDigitsFuel fuel n, 48 ≤ c.toNat ∧ c.toNat ≤ 57 := by
  intro fuel
  induction fuel with
  | zero => omega
  | succ fuel ih =>
    intro n hn c hc
    unfold natDigitsFuel at hc
    split at hc
    · simp only [List.mem_singleton] at hc
      subst hc
      rw [char_toNat_ofNat_small _ (by omega)]
      omega
    · rw [List.mem_append] at hc
      rcases hc with hc | hc
      · exact ih (n / 10) (by omega) c hc
      · simp only [List.mem_singleton] at hc
        subst hc
        rw [char_toNat_ofNat_small _ (by omega)]
        omega

theorem natDigitsFuel_ne_nil (fuel n : Nat) (h : n < fuel) :
    natDigitsFuel fuel n ≠ [] := by
  cases fuel with
  | zero => omega
  | succ fuel =>
    unfold natDigitsFuel
    split
    · simp
    · simp

theorem natDigitsFuel_congr : ∀ (f1 f2 n : Nat), n < f1 → n < f2 →
    natDigitsFuel f1 n = natDigitsFuel f2 n := by
  intro f1
  induction f1 with
  | zero => omega
  | succ f1 ih =>
    intro f2 n h1 h2
    cases f2 with
    | zero => omega
    | succ f2 =>
      show (if n < 10 then _ else _) = (if n < 10 then _ else _)
      by_cases h10 : n < 10
      · rw [if_pos h10, if_pos h10]
      · rw [if_neg h10, if_neg h10, ih f2 (n / 10) (by omega) (by omega)]

/-- The digit fold of `parseU64` inverts `natDigitsFuel`. -/
theorem natDigitsFuel_foldl : ∀ (fuel n : Nat), n < fuel → ∀ (acc : Nat),
    (natDigitsFuel fuel n).foldl (fun acc c => acc * 10 + (c.toNat - 48)) acc =
      acc * 10 ^ (natDigitsFuel fuel n).length + n := by
  intro fuel
  induction fuel with
  | zero => omega
  | succ fuel ih =>
    intro n hn acc
    unfold natDigitsFuel
    split
    · simp only [List.foldl_cons, List.foldl_nil, List.length_singleton]
      rw [char_toNat_ofNat_small _ (by omega)]
      ring_nf
      omega
    · rw [List.foldl_append, ih (n / 10) (by omega) acc]
      simp only [List.foldl_cons, List.foldl_nil, List.length_append,
        List.length_singleton]
      rw [char_toNat_ofNat_small _ (by omega)]
      rw [show 48 + n % 10 - 48 = n % 10 by omega, pow_succ]
      have hdm : n / 10 * 10 + n % 10 = n := by omega
      calc (acc * 10 ^ (natDigitsFuel fuel (n / 10)).length + n / 10) * 10 + n % 10
          = acc * (10 ^ (natDigitsFuel fuel (n / 10)).length * 10) +
            (n / 10 * 10 + n % 10) := by ring
        _ = acc * (10 ^ (natDigitsFuel fuel (n / 10)).length * 10) + n := by rw [hdm]

/-- `parse::<u64>` inverts `to_string` for values in `u64` range. -/
theorem parseU64_natToStr (n : Nat) (h : n < 2 ^ 64) :
    parseU64 (natToStr n) = some n := by
  unfold parseU64 natToStr
  have hdig := natDigitsFuel_digits (n + 1) n (by omega)
  have hne := natDigitsFuel_ne_nil (n + 1) n (by omega)
  have hplus : (String.mk (natDigitsFuel (n + 1) n)).data.head? ≠ some '+' := by
    show (natDigitsFuel (n + 1) n).head? ≠ some '+'
    cases hd : natDigitsFuel (n + 1) n with
    | nil => simp
    | cons c t =>
      have := hdig c (by rw [hd]; simp)
      intro hc
      have hc2 : c = '+' := by injection hc
      subst hc2
      simp at this
  rw [if_neg hplus]
  show (if (natDigitsFuel (n + 1) n).isEmpty = true then _ else _) = _
  rw [if_neg (by simpa [List.isEmpty_iff] using hne)]
  rw [if_pos (by
    rw [List.all_eq_true]
    intro c hc
    simpa using hdig c hc)]
  simp only
  rw [natDigitsFuel_foldl (n + 1) n (by omega) 0, Nat.zero_mul, Nat.zero_add, if_pos h]

/-! ## Text codec (`txt_format.rs`) -/

/-- Drop a trailing carriage return from a reversed line fragment (the CRLF
handling of `BufRead::lines`). -/
def stripTrailCr (acc : List Char) : List Char :=
  match acc with
  | c :: t => if c = '\x0d' then t else c :: t
  | [] => []

/-- Worker for `splitLines`: `acc` is the current line fragment, reversed. -/
def linesAux : List Char → List Char → List String
  | [], acc => if acc.isEmpty then [] else [String.mk acc.reverse]
  | c :: rest, acc =>
    if c = '\n' then String.mk (stripTrailCr acc).reverse :: linesAux rest []
    else linesAux rest (c :: acc)

/-- `BufRead::lines`: split at `\n`, stripping a trailing `\r` from each
newline-terminated line; a final fragment without a newline is still a line,
and a trailing newline does not produce an extra empty line. -/
def splitLines (s : String) : List String :=
  linesAux s.data []

/-- `str::split_once(": ")`: split at the first occurrence of colon-space. -/
def splitColonSpace : List Char → Option (List Char × List Char)
  | [] => none
  | c :: rest =>
    if c = ':' then
      match rest with
      | c2 :: rest2 =>
        if c2 = ' ' then some ([], rest2)
        else (splitColonSpace rest).map fun p => (c :: p.1, p.2)
      | [] => none
    else (splitColonSpace rest).map fun p => (c :: p.1, p.2)

/-- The per-block field map (`HashMap<String, String>`), modelled as an
association list; `read_all` checks for duplicates before inserting, so its
keys stay distinct. -/
def fieldsContains (m : List (String × String)) (k : String) : Bool :=
  m.any fun p => p.1 == k

/-- `HashMap::get` on the per-block field map. -/
def fieldValue? (m : List (String × String)) (k : String) : Option String :=
  (m.find? fun p => p.1 == k).map Prod.snd

/-- The `field_value` helper inside `TryInto<Record> for TextRecord`. -/
def fieldValueE (m : List (String × String)) (k : String) : Except YpbankError String :=
  match fieldValue? m k with
  | some v => .ok v
  | none => .error (.TextFieldNotFound k)

/-- A `field_value(..).and_then(parse::<u64>)` chain of the text decoder. -/
def parseFieldU64 (m : List (String × String)) (k : String) : Except YpbankError Nat :=
  (fieldValueE m k).bind fun v =>
    match parseU64 v with
    | some n => .ok n
    | none => .error (.TextUnexpectedFieldValue k v)

/-- `impl TryInto<Record> for TextRecord` (`txt_format.rs`): field lookups and
parses in source order, with the quote check on `DESCRIPTION`. -/
def textTryInto (m : List (String × String)) : Except YpbankError Record :=
  (parseFieldU64 m "TX_ID").bind fun id =>
  (parseFieldU64 m "FROM_USER_ID").bind fun from_user_id =>
  (parseFieldU64 m "TO_USER_ID").bind fun to_user_id =>
  ((fieldValueE m "TX_TYPE").bind fun v =>
    (match v with
      | "DEPOSIT" => .ok (RecordType.Deposit to_user_id)
      | "WITHDRAWAL" => .ok (RecordType.Withdrawal from_user_id)
      | "TRANSFER" => .ok (RecordType.Transfer from_user_id to_user_id)
      | other => .error (.TextUnexpectedFieldValue "TX_TYPE" other)
      : Except YpbankError RecordType)).bind fun record_type =>
  (parseFieldU64 m "AMOUNT").bind fun amount =>
  (parseFieldU64 m "TIMESTAMP").bind fun timestamp =>
  ((fieldValueE m "STATUS").bind fun v =>
    (match v with
      | "SUCCESS" => .ok RecordStatus.Success
      | "PENDING" => .ok RecordStatus.Pending
      | "FAILURE" => .ok RecordStatus.Failure
      | other => .error (.TextUnexpectedFieldValue "STATUS" other)
      : Except YpbankError RecordStatus)).bind fun status =>
  ((fieldValueE m "DESCRIPTION").bind fun v =>
    (if 2 ≤ v.data.length ∧ v.data.head? = some '\x22' ∧ v.data.getLast? = some '\x22' then
      .ok (String.mk (v.data.drop 1).dropLast)
    else .error (.TextUnexpectedFieldValue "DESCRIPTION" v)
      : Except YpbankError String)).bind fun description =>
  .ok { id := id, record_type := record_type, amount := amount,
        timestamp := timestamp, status := status, description := description }

/-- The line loop of `TextRecordReader::read_all`: a blank line converts the
accumulated map into a record (even when the map is empty), `#` lines are
skipped, `KEY: VALUE` lines insert after a duplicate check, anything else is a
parse error; a non-empty pending map at end of input yields a final record. -/
def textRecLoop : List String → List (String × String) → Except YpbankError (List Record)
  | [], m =>
    if m.isEmpty then .ok []
    else (textTryInto m).map ([·])
  | line :: rest, m =>
    if line = "" then
      (textTryInto m).bind fun r => (textRecLoop rest []).map (r :: ·)
    else if line.data.head? = some '#' then textRecLoop rest m
    else
      match splitColonSpace line.data with
      | some p =>
        if fieldsContains m (String.mk p.1) then
          .error (.TextDuplicateField (String.mk p.1))
        else textRecLoop rest (m ++ [(String.mk p.1, String.mk p.2)])
      | none => .error (.TextUnableToParse line)

/-- `TextRecordReader::read_all`. -/
def textReadAll (s : String) : Except YpbankError (List Record) :=
  textRecLoop (splitLines s) []

/-- The `TX_TYPE` literal written by the text and CSV encoders. -/
def txTypeStr : RecordType → String
  | .Deposit _ => "DEPOSIT"
  | .Withdrawal _ => "WITHDRAWAL"
  | .Transfer _ _ => "TRANSFER"

/-- The `STATUS` literal written by the text and CSV encoders. -/
def statusStr : RecordStatus → String
  | .Success => "SUCCESS"
  | .Failure => "FAILURE"
  | .Pending => "PENDING"

/-- The eight fields inserted into the `TextRecord` map by
`impl From<&Record> for TextRecord`, in the order of the `vec!` literal;
`DESCRIPTION` is quoted unconditionally and absent user ids render as `0`. -/
def textFields (r : Record) : List (String × String) :=
  [("TX_ID", natToStr r.id),
   ("TX_TYPE", txTypeStr r.record_type),
   ("FROM_USER_ID", natToStr (recordTypeFlat r.record_type).2.1),
   ("TO_USER_ID", natToStr (recordTypeFlat r.record_type).2.2),
   ("AMOUNT", natToStr r.amount),
   ("TIMESTAMP", natToStr r.timestamp),
   ("STATUS", statusStr r.status),
   ("DESCRIPTION", "\x22" ++ r.description ++ "\x22")]

/-- The characters of one `format!("{k}: {v}\n")` line, without the newline. -/
def textLineChars (p : String × String) : List Char :=
  p.1.data ++ ':' :: ' ' :: p.2.data

/-- `TextRecordWriter::write_all`, parameterized by the iteration order of
`for (k, v) in text_record.fields`: `fields` is a `HashMap`, whose iteration
order is unspecified, so `enum` ranges over functions that enumerate the map
(theorems constrain it to permutations).  Each field writes
`format!("{k}: {v}\n")`, and each record's lines are followed by one blank
line. -/
def textWriteAll (enum : List (String × String) → List (String × String))
    (records : List Record) : String :=
  String.mk (records.flatMap fun r =>
    ((enum (textFields r)).flatMap fun p => textLineChars p ++ ['\n']) ++ ['\n'])

theorem linesAux_chunk (l : List Char) (hnl : '\n' ∉ l) :
    ∀ (s acc : List Char), linesAux (l ++ s) acc = linesAux s (l.reverse ++ acc) := by
  induction l with
  | nil => intro s acc; simp
  | cons c t ih =>
    intro s acc
    simp only [List.mem_cons, not_or] at hnl
    show linesAux (c :: (t ++ s)) acc = _
    rw [linesAux, if_neg (fun h => hnl.1 h.symm), ih hnl.2 s (c :: acc)]
    simp

theorem stripTrailCr_no_cr (l : List Char) (h : l.getLast? ≠ some '\x0d') :
    stripTrailCr l.reverse = l.reverse := by
  cases hl : l.reverse with
  | nil => rfl
  | cons c t =>
    have hlast : l.getLast? = some c := by
      rw [← List.head?_reverse, hl, List.head?_cons]
    have hc : c ≠ '\x0d' := by
      intro hcc
      exact h (hcc ▸ hlast)
    show (if c = '\x0d' then t else c :: t) = c :: t
    rw [if_neg hc]

/-- `splitLines` inverts line-by-line rendering, for lines that contain no
newline and do not end in a carriage return. -/
theorem linesAux_render (ls : List (List Char))
    (h : ∀ l ∈ ls, '\n' ∉ l ∧ l.getLast? ≠ some '\x0d') :
    linesAux (ls.flatMap (· ++ ['\n'])) [] = ls.map String.mk := by
  induction ls with
  | nil => rfl
  | cons l t ih =>
    obtain ⟨hnl, hcr⟩ := h l (by simp)
    rw [List.flatMap_cons, List.append_assoc, List.singleton_append,
      linesAux_chunk l hnl]
    show linesAux ('\n' :: t.flatMap (· ++ ['\n'])) (l.reverse ++ []) = _
    rw [linesAux, if_pos rfl, List.append_nil, stripTrailCr_no_cr l hcr,
      List.reverse_reverse, ih (fun x hx => h x (by simp [hx]))]
    rfl

theorem splitColonSpace_key (k : List Char) (hk : ':' ∉ k) (v : List Char) :
    splitColonSpace (k ++ ':' :: ' ' :: v) = some (k, v) := by
  induction k with
  | nil =>
    show splitColonSpace (':' :: ' ' :: v) = some ([], v)
    rw [splitColonSpace, if_pos rfl, if_pos rfl]
  | cons c t ih =>
    simp only [List.mem_cons, not_or] at hk
    show splitColonSpace (c :: (t ++ ':' :: ' ' :: v)) = _
    rw [splitColonSpace.eq_def]
    dsimp only
    rw [if_neg (fun h => hk.1 h.symm), ih hk.2]
    rfl

theorem fieldsContains_iff (m : List (String × String)) (k : String) :
    fieldsContains m k = true ↔ k ∈ m.map Prod.fst := by
  simp only [fieldsContains, List.any_eq_true, List.mem_map, beq_iff_eq]

theorem fieldValue?_eq_none_iff (m : List (String × String)) (k : String) :
    fieldValue? m k = none ↔ k ∉ m.map Prod.fst := by
  simp only [fieldValue?, Option.map_eq_none', List.find?_eq_none, beq_iff_eq,
    List.mem_map]
  constructor
  · intro h hk
    obtain ⟨p, hp, he⟩ := hk
    exact h p hp he
  · intro h p hp he
    exact h ⟨p, hp, he⟩

theorem fieldValue?_eq_some_of_mem (m : List (String × String)) (k : String) (v : String)
    (hnd : (m.map Prod.fst).Nodup) (hmem : (k, v) ∈ m) :
    fieldValue? m k = some v := by
  induction m with
  | nil => cases hmem
  | cons q t ih =>
    simp only [List.map_cons, List.nodup_cons] at hnd
    by_cases hq1 : q.1 = k
    · have hqv : q = (k, v) := by
        rcases List.mem_cons.mp hmem with hq | ht
        · exact hq.symm
        · exact absurd (hq1 ▸ List.mem_map.mpr ⟨(k, v), ht, rfl⟩) hnd.1
      show ((q :: t).find? fun p => p.1 == k).map Prod.snd = some v
      rw [List.find?_cons_of_pos _ (by simpa using hq1), hqv]
      rfl
    · have ht : (k, v) ∈ t := by
        rcases List.mem_cons.mp hmem with hq | ht
        · exact absurd (show q.1 = k by rw [← hq]) hq1
        · exact ht
      show ((q :: t).find? fun p => p.1 == k).map Prod.snd = some v
      rw [List.find?_cons_of_neg _ (by simpa using hq1)]
      exact ih hnd.2 ht

/-- Lookup in a duplicate-free field map is invariant under permutation. -/
theorem fieldValue?_perm {l1 l2 : List (String × String)} (hperm : l1.Perm l2)
    (hnd : (l1.map Prod.fst).Nodup) (k : String) :
    fieldValue? l1 k = fieldValue? l2 k := by
  have hnd2 : (l2.map Prod.fst).Nodup := ((hperm.map Prod.fst).nodup_iff).mp hnd
  cases h1 : fieldValue? l1 k with
  | none =>
    rw [fieldValue?_eq_none_iff] at h1
    have h2 : k ∉ l2.map Prod.fst := by
      intro hk
      exact h1 (((hperm.map Prod.fst).mem_iff).mpr hk)
    rw [(fieldValue?_eq_none_iff l2 k).mpr h2]
  | some v =>
    have hfind : ∃ p, l1.find? (fun p => p.1 == k) = some p ∧ p.2 = v := by
      unfold fieldValue? at h1
      cases hf : l1.find? (fun p => p.1 == k) with
      | none => rw [hf] at h1; cases h1
      | some p => rw [hf] at h1; exact ⟨p, rfl, by simpa using h1⟩
    obtain ⟨p, hf, hv⟩ := hfind
    have hpmem : p ∈ l1 := List.mem_of_find?_eq_some hf
    have hpk : p.1 = k := by simpa using List.find?_some hf
    have hkv : (k, v) ∈ l2 := by
      have : p = (k, v) := by
        rcases p with ⟨a, b⟩
        simp only at hpk hv
        rw [hpk, hv]
      exact hperm.mem_iff.mp (this ▸ hpmem)
    rw [fieldValue?_eq_some_of_mem l2 k v hnd2 hkv]

/-- Processing the rendered lines of duplicate-free fields accumulates exactly
those fields into the block map. -/
theorem textRecLoop_block (fields : List (String × String)) :
    ∀ (rest : List String) (m : List (String × String)),
    ((m ++ fields).map Prod.fst).Nodup →
    (∀ p ∈ fields, p.1.data ≠ [] ∧ p.1.data.head? ≠ some '#' ∧ ':' ∉ p.1.data) →
    textRecLoop ((fields.map fun p => String.mk (textLineChars p)) ++ rest) m =
      textRecLoop rest (m ++ fields) := by
  induction fields with
  | nil => intro rest m _ _; simp
  | cons p t ih =>
    intro rest m hnd hgood
    obtain ⟨hne, hhash, hcolon⟩ := hgood p (by simp)
    show textRecLoop (String.mk (textLineChars p) :: ((t.map fun p =>
      String.mk (textLineChars p)) ++ rest)) m = _
    rw [textRecLoop.eq_def]
    dsimp only
    rw [if_neg (by
      intro hemp
      have : textLineChars p = [] := congrArg String.data hemp
      unfold textLineChars at this
      simp at this)]
    rw [if_neg (by
      show ¬(textLineChars p).head? = some '#'
      have hh : (textLineChars p).head? = p.1.data.head? := by
        unfold textLineChars
        cases hd : p.1.data with
        | nil => exact absurd hd hne
        | cons c cs => simp
      rw [hh]
      exact hhash)]
    have hsplit : splitColonSpace (String.mk (textLineChars p)).data =
        some (p.1.data, p.2.data) := splitColonSpace_key p.1.data hcolon p.2.data
    rw [hsplit]
    dsimp only
    rw [List.map_append, List.map_cons] at hnd
    have hnotin : p.1 ∉ m.map Prod.fst := by
      rcases List.nodup_append.mp hnd with ⟨_, _, hdisj⟩
      intro hmem
      exact hdisj hmem (by simp)
    rw [if_neg (by
      rw [show String.mk p.1.data = p.1 from rfl, fieldsContains_iff]
      exact fun h => hnotin h)]
    rw [show (String.mk p.1.data, String.mk p.2.data) = p from rfl]
    rw [ih rest (m ++ [p]) (by
      have hEq : List.map Prod.fst (m ++ [p]) ++ List.map Prod.fst t
          = List.map Prod.fst m ++ p.1 :: List.map Prod.fst t := by simp
      rw [List.map_append, hEq]
      exact hnd)
      (fun q hq => hgood q (by simp [hq]))]
    rw [List.append_assoc, List.singleton_append]

theorem textFields_keys (r : Record) : (textFields r).map Prod.fst =
    ["TX_ID", "TX_TYPE", "FROM_USER_ID", "TO_USER_ID", "AMOUNT", "TIMESTAMP",
     "STATUS", "DESCRIPTION"] := rfl

theorem textFields_keys_nodup (r : Record) : ((textFields r).map Prod.fst).Nodup := by
  rw [textFields_keys]
  decide

theorem recordTypeFlat_lt (rt : RecordType) (h : rt.u64ok) :
    (recordTypeFlat rt).2.1 < 2 ^ 64 ∧ (recordTypeFlat rt).2.2 < 2 ^ 64 := by
  cases rt with
  | Deposit t =>
    unfold RecordType.u64ok at h
    dsimp only [recordTypeFlat]
    exact ⟨by norm_num, h⟩
  | Withdrawal f =>
    unfold RecordType.u64ok at h
    dsimp only [recordTypeFlat]
    exact ⟨h, by norm_num⟩
  | Transfer f t =>
    unfold RecordType.u64ok at h
    dsimp only [recordTypeFlat]
    exact ⟨h.1, h.2⟩

theorem textFields_lookup_id (r : Record) :
    fieldValue? (textFields r) "TX_ID" = some (natToStr r.id) := rfl

theorem textFields_lookup_type (r : Record) :
    fieldValue? (textFields r) "TX_TYPE" = some (txTypeStr r.record_type) := rfl

theorem textFields_lookup_from (r : Record) :
    fieldValue? (textFields r) "FROM_USER_ID" =
      some (natToStr (recordTypeFlat r.record_type).2.1) := rfl

theorem textFields_lookup_to (r : Record) :
    fieldValue? (textFields r) "TO_USER_ID" =
      some (natToStr (recordTypeFlat r.record_type).2.2) := rfl

theorem textFields_lookup_amount (r : Record) :
    fieldValue? (textFields r) "AMOUNT" = some (natToStr r.amount) := rfl

theorem textFields_lookup_timestamp (r : Record) :
    fieldValue? (textFields r) "TIMESTAMP" = some (natToStr r.timestamp) := rfl

theorem textFields_lookup_status (r : Record) :
    fieldValue? (textFields r) "STATUS" = some (statusStr r.status) := rfl

theorem textFields_lookup_description (r : Record) :
    fieldValue? (textFields r) "DESCRIPTION" =
      some ("\x22" ++ r.description ++ "\x22") := rfl

theorem quoted_data (d : String) :
    ("\x22" ++ d ++ "\x22").data = ('\x22' :: d.data) ++ ['\x22'] := by
  simp [String.data_append]

/-- Converting a permutation of the encoder's field map recovers the record. -/
theorem textTryInto_textFields (r : Record) (hrep : r.representable)
    (m : List (String × String)) (hperm : m.Perm (textFields r)) :
    textTryInto m = .ok r := by
  have hnd : (m.map Prod.fst).Nodup :=
    ((hperm.map Prod.fst).nodup_iff).mpr (textFields_keys_nodup r)
  have hlook := fun k => fieldValue?_perm hperm hnd k
  obtain ⟨hid, ham, hts, hrt⟩ := hrep
  obtain ⟨hfu, htu⟩ := recordTypeFlat_lt r.record_type hrt
  unfold textTryInto parseFieldU64 fieldValueE
  simp only [hlook, textFields_lookup_id, textFields_lookup_type, textFields_lookup_from,
    textFields_lookup_to, textFields_lookup_amount, textFields_lookup_timestamp,
    textFields_lookup_status, textFields_lookup_description]
  simp only [okBind]
  rw [parseU64_natToStr r.id hid, parseU64_natToStr _ hfu, parseU64_natToStr _ htu,
    parseU64_natToStr r.amount ham, parseU64_natToStr r.timestamp hts]
  simp only [okBind]
  have hcond : (2 ≤ ("\x22" ++ r.description ++ "\x22").data.length ∧
      ("\x22" ++ r.description ++ "\x22").data.head? = some '\x22' ∧
      ("\x22" ++ r.description ++ "\x22").data.getLast? = some '\x22') := by
    refine ⟨?_, ?_, ?_⟩
    · rw [quoted_data]
      simp
    · rw [quoted_data]
      rfl
    · rw [quoted_data, List.getLast?_concat]
  have hstrip : String.mk ((("\x22" ++ r.description ++ "\x22").data.drop 1).dropLast)
      = r.description := by
    rw [quoted_data]
    show String.mk ((('\x22' :: r.description.data) ++ ['\x22']).tail).dropLast = _
    rw [List.cons_append, List.tail_cons, List.dropLast_concat]
  cases hrtc : r.record_type <;> cases hst : r.status <;>
    · dsimp only [txTypeStr, statusStr, recordTypeFlat]
      simp only [okBind, if_pos hcond, hstrip]
      exact congrArg Except.ok (by
        cases r
        simp_all [recordTypeFlat])

/-- A value can be written on a `KEY: VALUE` line and split back: non-empty,
no newline, and not ending in a carriage return. -/
def goodValue (v : String) : Prop :=
  v.data ≠ [] ∧ '\n' ∉ v.data ∧ v.data.getLast? ≠ some '\x0d'

theorem natToStr_goodValue (n : Nat) : goodValue (natToStr n) := by
  have hdig := natDigitsFuel_digits (n + 1) n (by omega)
  have hne := natDigitsFuel_ne_nil (n + 1) n (by omega)
  refine ⟨hne, ?_, ?_⟩
  · intro hmem
    have := hdig _ hmem
    simp at this
  · intro hlast
    have hmem : '\x0d' ∈ natDigitsFuel (n + 1) n := List.mem_of_mem_getLast? hlast
    have := hdig _ hmem
    simp at this

theorem textFields_values_good (r : Record) (hdesc : '\n' ∉ r.description.data) :
    ∀ p ∈ textFields r, goodValue p.2 := by
  intro p hp
  simp only [textFields, List.mem_cons, List.not_mem_nil, or_false] at hp
  rcases hp with h | h | h | h | h | h | h | h <;> subst h
  · exact natToStr_goodValue _
  · cases r.record_type <;>
      · unfold goodValue
        dsimp only [txTypeStr]
        decide
  · exact natToStr_goodValue _
  · exact natToStr_goodValue _
  · exact natToStr_goodValue _
  · exact natToStr_goodValue _
  · cases r.status <;>
      · unfold goodValue
        dsimp only [statusStr]
        decide
  · refine ⟨?_, ?_, ?_⟩
    · rw [quoted_data]
      simp
    · rw [quoted_data]
      intro hmem
      rcases List.mem_append.mp hmem with hmem | hmem
      · rcases List.mem_cons.mp hmem with hc | hc
        · cases hc
        · exact hdesc hc
      · simp at hmem
    · rw [quoted_data, List.getLast?_concat]
      decide

theorem textFields_keys_good (r : Record) :
    ∀ p ∈ textFields r, p.1.data ≠ [] ∧ p.1.data.head? ≠ some '#' ∧
      ':' ∉ p.1.data ∧ '\n' ∉ p.1.data := by
  intro p hp
  simp only [textFields, List.mem_cons, List.not_mem_nil, or_false] at hp
  rcases hp with h | h | h | h | h | h | h | h <;> subst h <;>
    · dsimp only
      decide

theorem textLineChars_good (p : String × String) (hk : '\n' ∉ p.1.data)
    (hv : goodValue p.2) :
    '\n' ∉ textLineChars p ∧ (textLineChars p).getLast? ≠ some '\x0d' := by
  obtain ⟨hne, hnl, hcr⟩ := hv
  constructor
  · intro hmem
    unfold textLineChars at hmem
    rcases List.mem_append.mp hmem with hmem | hmem
    · exact hk hmem
    · rcases List.mem_cons.mp hmem with hc | hmem
      · cases hc
      · rcases List.mem_cons.mp hmem with hc | hmem
        · cases hc
        · exact hnl hmem
  · show ¬(p.1.data ++ ':' :: ' ' :: p.2.data).getLast? = some '\x0d'
    rw [show p.1.data ++ ':' :: ' ' :: p.2.data
      = (p.1.data ++ [':', ' ']) ++ p.2.data by simp]
    rw [List.getLast?_append_of_ne_nil _ hne]
    exact hcr

/-- The blank line after each block merges into the line-per-record shape. -/
theorem block_shape (fields : List (String × String)) :
    (fields.flatMap fun p => textLineChars p ++ ['\n']) ++ ['\n'] =
      ((fields.map textLineChars) ++ [[]]).flatMap (· ++ ['\n']) := by
  induction fields with
  | nil => rfl
  | cons p t ih =>
    simp only [List.flatMap_cons, List.map_cons, List.cons_append, List.append_assoc,
      List.nil_append] at *
    rw [ih]

theorem writeChars_shape (enum : List (String × String) → List (String × String))
    (rs : List Record) :
    (rs.flatMap fun r =>
        ((enum (textFields r)).flatMap fun p => textLineChars p ++ ['\n']) ++ ['\n']) =
      (rs.flatMap fun r => ((enum (textFields r)).map textLineChars) ++ [[]]).flatMap
        (· ++ ['\n']) := by
  induction rs with
  | nil => rfl
  | cons r t ih =>
    rw [List.flatMap_cons, List.flatMap_cons, List.flatMap_append, ih, block_shape]

/-- Decoding the rendered lines of a record list recovers the records. -/
theorem textRecLoop_render (enum : List (String × String) → List (String × String))
    (henum : ∀ m, (enum m).Perm m) :
    ∀ (rs : List Record), (∀ r ∈ rs, r.representable) →
    textRecLoop ((rs.flatMap fun r =>
      ((enum (textFields r)).map textLineChars) ++ [[]]).map String.mk) [] = .ok rs := by
  intro rs
  induction rs with
  | nil => intro _; rfl
  | cons r t ih =>
    intro hrep
    rw [List.flatMap_cons, List.map_append, List.map_append]
    have hmap : (List.map String.mk ((enum (textFields r)).map textLineChars)) =
        (enum (textFields r)).map fun p => String.mk (textLineChars p) := by
      rw [List.map_map]
      rfl
    rw [hmap, List.append_assoc]
    rw [textRecLoop_block (enum (textFields r)) _ [] (by
        simpa using ((henum (textFields r)).map Prod.fst).nodup_iff.mpr
          (textFields_keys_nodup r))
      (fun p hp => by
        have hmem : p ∈ textFields r := ((henum (textFields r)).mem_iff).mp hp
        obtain ⟨h1, h2, h3, _⟩ := textFields_keys_good r p hmem
        exact ⟨h1, h2, h3⟩)]
    show textRecLoop ("" :: (t.flatMap fun r =>
      ((enum (textFields r)).map textLineChars) ++ [[]]).map String.mk)
      ([] ++ enum (textFields r)) = _
    rw [textRecLoop.eq_def]
    dsimp only
    rw [if_pos rfl, List.nil_append,
      textTryInto_textFields r (hrep r (by simp)) _ (henum (textFields r)), okBind,
      ih (fun x hx => hrep x (by simp [hx]))]
    rfl

/-- Text round trip: decoding what the writer produced recovers the records,
for representable records whose descriptions contain no newline, whatever
iteration order the field map produced. -/
theorem textReadAll_textWriteAll (enum : List (String × String) → List (String × String))
    (henum : ∀ m, (enum m).Perm m) (rs : List Record)
    (h : ∀ r ∈ rs, r.representable ∧ '\n' ∉ r.description.data) :
    textReadAll (textWriteAll enum rs) = .ok rs := by
  unfold textReadAll textWriteAll splitLines
  show textRecLoop (linesAux (rs.flatMap fun r =>
    ((enum (textFields r)).flatMap fun p => textLineChars p ++ ['\n']) ++ ['\n']) []) []
    = _
  rw [writeChars_shape, linesAux_render _ (by
    intro l hl
    simp only [List.mem_flatMap] at hl
    obtain ⟨r, hr, hl⟩ := hl
    rcases List.mem_append.mp hl with hl | hl
    · obtain ⟨p, hp, rfl⟩ := List.mem_map.mp hl
      have hmem : p ∈ textFields r := ((henum (textFields r)).mem_iff).mp hp
      exact textLineChars_good p (textFields_keys_good r p hmem).2.2.2
        (textFields_values_good r (h r hr).2 p hmem)
    · simp only [List.mem_singleton] at hl
      subst hl
      exact ⟨by simp, by simp⟩)]
  exact textRecLoop_render enum henum rs (fun r hr => (h r hr).1)

theorem string_ne_empty_of_data {l : String} (h : l.data ≠ []) : l ≠ "" := by
  intro he
  exact h (congrArg String.data he)

/-- Comment lines are skipped without touching the block map. -/
theorem textRecLoop_comments_prefix (pre : List String) :
    ∀ (rest : List String) (m : List (String × String)),
    (∀ l ∈ pre, l.data.head? = some '#') →
    textRecLoop (pre ++ rest) m = textRecLoop rest m := by
  induction pre with
  | nil => intro rest m _; rfl
  | cons l t ih =>
    intro rest m h
    have hl := h l (by simp)
    have hne : l.data ≠ [] := by
      intro hd
      rw [hd] at hl
      cases hl
    show textRecLoop (l :: (t ++ rest)) m = _
    rw [textRecLoop.eq_def]
    dsimp only
    rw [if_neg (string_ne_empty_of_data hne), if_pos hl]
    exact ih rest m (fun x hx => h x (by simp [hx]))

/-- Once the block map holds key `k`, reaching another `k`-keyed line in the
same block (no blank line in between) makes the whole decode fail. -/
theorem textRecLoop_stuck (mid : List String) :
    ∀ (m : List (String × String)) (k v2 : String) (rest : List String),
    fieldsContains m k = true → (∀ l ∈ mid, l ≠ "") →
    k.data ≠ [] → k.data.head? ≠ some '#' → ':' ∉ k.data →
    ∃ e, textRecLoop (mid ++ String.mk (textLineChars (k, v2)) :: rest) m = .error e := by
  induction mid with
  | nil =>
    intro m k v2 rest hcont _ hkne hkhash hkcolon
    show ∃ e, textRecLoop (String.mk (textLineChars (k, v2)) :: rest) m = .error e
    rw [textRecLoop.eq_def]
    dsimp only
    rw [if_neg (string_ne_empty_of_data (by
      show textLineChars (k, v2) ≠ []
      unfold textLineChars
      simp))]
    rw [if_neg (by
      show ¬(textLineChars (k, v2)).head? = some '#'
      unfold textLineChars
      cases hd : k.data with
      | nil => exact absurd hd hkne
      | cons c cs =>
        rw [hd] at hkhash
        simpa using hkhash)]
    have hsp : splitColonSpace (textLineChars (k, v2)) = some (k.data, v2.data) :=
      splitColonSpace_key k.data hkcolon v2.data
    rw [hsp]
    dsimp only
    rw [if_pos (by rw [show String.mk k.data = k from rfl]; exact hcont)]
    exact ⟨_, rfl⟩
  | cons l mid' ih =>
    intro m k v2 rest hcont hmid hkne hkhash hkcolon
    have hlne : l ≠ "" := hmid l (by simp)
    have hmid' : ∀ x ∈ mid', x ≠ "" := fun x hx => hmid x (by simp [hx])
    show ∃ e, textRecLoop (l :: (mid' ++ String.mk (textLineChars (k, v2)) :: rest)) m
      = .error e
    rw [textRecLoop.eq_def]
    dsimp only
    rw [if_neg hlne]
    by_cases hhash : l.data.head? = some '#'
    · rw [if_pos hhash]
      exact ih m k v2 rest hcont hmid' hkne hkhash hkcolon
    · rw [if_neg hhash]
      cases hsp : splitColonSpace l.data with
      | none => exact ⟨_, rfl⟩
      | some p =>
        dsimp only
        by_cases hdup : fieldsContains m (String.mk p.1) = true
        · rw [if_pos hdup]
          exact ⟨_, rfl⟩
        · rw [if_neg hdup]
          refine ih _ k v2 rest ?_ hmid' hkne hkhash hkcolon
          unfold fieldsContains at hcont ⊢
          rw [List.any_append, hcont]
          rfl

/-- Any input containing a block with a duplicated key fails to decode (with
some error, not necessarily the duplicate-field one). -/
theorem textRecLoop_dup_fails (pre : List String) :
    ∀ (m : List (String × String)) (k v1 v2 : String) (mid rest : List String),
    (∀ l ∈ mid, l ≠ "") → k.data ≠ [] → k.data.head? ≠ some '#' → ':' ∉ k.data →
    ∃ e, textRecLoop (pre ++ String.mk (textLineChars (k, v1)) ::
      (mid ++ String.mk (textLineChars (k, v2)) :: rest)) m = .error e := by
  induction pre with
  | nil =>
    intro m k v1 v2 mid rest hmid hkne hkhash hkcolon
    show ∃ e, textRecLoop (String.mk (textLineChars (k, v1)) ::
      (mid ++ String.mk (textLineChars (k, v2)) :: rest)) m = .error e
    rw [textRecLoop.eq_def]
    dsimp only
    rw [if_neg (string_ne_empty_of_data (by
      show textLineChars (k, v1) ≠ []
      unfold textLineChars
      simp))]
    rw [if_neg (by
      show ¬(textLineChars (k, v1)).head? = some '#'
      unfold textLineChars
      cases hd : k.data with
      | nil => exact absurd hd hkne
      | cons c cs =>
        rw [hd] at hkhash
        simpa using hkhash)]
    have hsp : splitColonSpace (textLineChars (k, v1)) = some (k.data, v1.data) :=
      splitColonSpace_key k.data hkcolon v1.data
    rw [hsp]
    dsimp only
    by_cases hdup : fieldsContains m (String.mk k.data) = true
    · rw [if_pos hdup]
      exact ⟨_, rfl⟩
    · rw [if_neg hdup]
      refine textRecLoop_stuck mid _ k v2 rest ?_ hmid hkne hkhash hkcolon
      unfold fieldsContains
      rw [List.any_append]
      have : ((String.mk k.data, String.mk v1.data) :: []).any
          (fun p => p.1 == k) = true := by
        simp [show String.mk k.data = k from rfl]
      rw [this, Bool.or_true]
  | cons l pre' ih =>
    intro m k v1 v2 mid rest hmid hkne hkhash hkcolon
    show ∃ e, textRecLoop (l :: (pre' ++ _ :: (mid ++ _ :: rest))) m = .error e
    rw [textRecLoop.eq_def]
    dsimp only
    by_cases hemp : l = ""
    · rw [if_pos hemp]
      cases hti : textTryInto m with
      | error e => exact ⟨e, rfl⟩
      | ok r =>
        obtain ⟨e, he⟩ := ih [] k v1 v2 mid rest hmid hkne hkhash hkcolon
        rw [he]
        exact ⟨e, rfl⟩
    · rw [if_neg hemp]
      by_cases hhash : l.data.head? = some '#'
      · rw [if_pos hhash]
        exact ih m k v1 v2 mid rest hmid hkne hkhash hkcolon
      · rw [if_neg hhash]
        cases hsp : splitColonSpace l.data with
        | none => exact ⟨_, rfl⟩
        | some p =>
          dsimp only
          by_cases hdup : fieldsContains m (String.mk p.1) = true
          · rw [if_pos hdup]
            exact ⟨_, rfl⟩
          · rw [if_neg hdup]
            exact ih _ k v1 v2 mid rest hmid hkne hkhash hkcolon

/-- When every line before the duplicate parses cleanly with fresh keys, the
error is precisely `TextDuplicateField` naming the duplicated key. -/
theorem textRecLoop_dup_exact (fields : List (String × String)) (k v2 : String)
    (rest : List String)
    (hk : k ∈ fields.map Prod.fst)
    (hnodup : (fields.map Prod.fst).Nodup)
    (hgood : ∀ p ∈ fields, p.1.data ≠ [] ∧ p.1.data.head? ≠ some '#' ∧ ':' ∉ p.1.data)
    (hkne : k.data ≠ []) (hkhash : k.data.head? ≠ some '#') (hkcolon : ':' ∉ k.data) :
    textRecLoop ((fields.map fun p => String.mk (textLineChars p)) ++
      String.mk (textLineChars (k, v2)) :: rest) [] =
      .error (.TextDuplicateField k) := by
  rw [textRecLoop_block fields _ [] (by simpa using hnodup) hgood]
  rw [textRecLoop.eq_def]
  dsimp only
  rw [if_neg (string_ne_empty_of_data (by
    show textLineChars (k, v2) ≠ []
    unfold textLineChars
    simp))]
  rw [if_neg (by
    show ¬(textLineChars (k, v2)).head? = some '#'
    unfold textLineChars
    cases hd : k.data with
    | nil => exact absurd hd hkne
    | cons c cs =>
      rw [hd] at hkhash
      simpa using hkhash)]
  have hsp : splitColonSpace (textLineChars (k, v2)) = some (k.data, v2.data) :=
    splitColonSpace_key k.data hkcolon v2.data
  rw [hsp]
  dsimp only
  rw [if_pos (by
    rw [show String.mk k.data = k from rfl, List.nil_append, fieldsContains_iff]
    exact hk)]

/-! ## CSV codec (`csv_format.rs`, on top of the `csv` crate) -/

/-- `csv_format.rs`: the serde row type, after integer deserialization. -/
structure CsvRecord where
  id : Nat
  record_type : String
  from_user_id : Nat
  to_user_id : Nat
  amount : Nat
  timestamp : Nat
  status : String
  description : String
  deriving DecidableEq, Repr

/-- `impl TryInto<Record> for CsvRecord`. -/
def csvTryInto (cr : CsvRecord) : Except YpbankError Record :=
  ((match cr.record_type with
    | "DEPOSIT" => .ok (RecordType.Deposit cr.to_user_id)
    | "WITHDRAWAL" => .ok (RecordType.Withdrawal cr.from_user_id)
    | "TRANSFER" => .ok (RecordType.Transfer cr.from_user_id cr.to_user_id)
    | other => .error (.CsvUnexpectedValue other)
    : Except YpbankError RecordType)).bind fun record_type =>
  ((match cr.status with
    | "SUCCESS" => .ok RecordStatus.Success
    | "PENDING" => .ok RecordStatus.Pending
    | "FAILURE" => .ok RecordStatus.Failure
    | other => .error (.CsvUnexpectedValue other)
    : Except YpbankError RecordStatus)).bind fun status =>
  .ok { id := cr.id, record_type := record_type, amount := cr.amount,
        timestamp := cr.timestamp, status := status, description := cr.description }

/-- The `csv` crate's record reader as a character state machine: fields split
on commas, records on (CR)LF, double quotes open a quoted field in which `""`
is a literal quote; completely empty records are skipped, and a pending field
or row at end of input forms a final record.  `inQ` is the in-quotes state,
`f` the current field (reversed), `row` the current record (reversed). -/
def csvRowsAux : Bool → List Char → List Char → List String → List (List String)
  | true, '\x22' :: '\x22' :: rest, f, row => csvRowsAux true rest ('\x22' :: f) row
  | true, '\x22' :: rest, f, row => csvRowsAux false rest f row
  | true, c :: rest, f, row => csvRowsAux true rest (c :: f) row
  | true, [], f, row => [(String.mk f.reverse :: row).reverse]
  | false, ',' :: rest, f, row => csvRowsAux false rest [] (String.mk f.reverse :: row)
  | false, '\n' :: rest, f, row =>
    if f.isEmpty ∧ row.isEmpty then csvRowsAux false rest [] []
    else (String.mk f.reverse :: row).reverse :: csvRowsAux false rest [] []
  | false, '\x0d' :: '\n' :: rest, f, row =>
    if f.isEmpty ∧ row.isEmpty then csvRowsAux false rest [] []
    else (String.mk f.reverse :: row).reverse :: csvRowsAux false rest [] []
  | false, '\x22' :: rest, f, row =>
    if f.isEmpty then csvRowsAux true rest f row
    else csvRowsAux false rest ('\x22' :: f) row
  | false, c :: rest, f, row => csvRowsAux false rest (c :: f) row
  | false, [], f, row =>
    if f.isEmpty ∧ row.isEmpty then [] else [(String.mk f.reverse :: row).reverse]

/-- Look up a column index by header name (serde's by-name field binding). -/
def csvHeaderIdx (header : List String) (name : String) : Option Nat :=
  header.findIdx? (· == name)

/-- Extract the raw string of a named column from a row. -/
def csvField (header row : List String) (name : String) : Except YpbankError String :=
  match csvHeaderIdx header name with
  | some i =>
    match row.get? i with
    | some v => .ok v
    | none => .error (.CsvParseError "missing field")
  | none => .error (.CsvParseError "missing header column")

/-- Extract and parse a `u64` column (serde integer deserialization; failures
surface as `CsvParseError` via `From<csv::Error>`). -/
def csvFieldU64 (header row : List String) (name : String) : Except YpbankError Nat :=
  (csvField header row name).bind fun v =>
    match parseU64 v with
    | some n => .ok n
    | none => .error (.CsvParseError ("invalid integer: " ++ v))

/-- Deserialize one data row against the header (the crate rejects rows whose
length differs from the header's), then convert via `TryInto`. -/
def csvRowToRecord (header row : List String) : Except YpbankError Record :=
  if row.length = header.length then
    (csvFieldU64 header row "TX_ID").bind fun id =>
    (csvField header row "TX_TYPE").bind fun record_type =>
    (csvFieldU64 header row "FROM_USER_ID").bind fun from_user_id =>
    (csvFieldU64 header row "TO_USER_ID").bind fun to_user_id =>
    (csvFieldU64 header row "AMOUNT").bind fun amount =>
    (csvFieldU64 header row "TIMESTAMP").bind fun timestamp =>
    (csvField header row "STATUS").bind fun status =>
    (csvField header row "DESCRIPTION").bind fun description =>
    csvTryInto { id := id, record_type := record_type, from_user_id := from_user_id,
                 to_user_id := to_user_id, amount := amount, timestamp := timestamp,
                 status := status, description := description }
  else .error (.CsvParseError "record length mismatch")

/-- `CsvRecordReader::read_all`: the crate consumes the first record as the
header row; no rows at all (empty input or header-only) is an empty record
set. -/
def csvDecode (s : String) : Except YpbankError (List Record) :=
  match csvRowsAux false s.data [] [] with
  | [] => .ok []
  | header :: rows => exceptMapM (csvRowToRecord header) rows

/-! ## Diff engine (`bin/comparer.rs`) -/

/-- `HashMap::insert`-style update on an association list: overwrite the
existing binding or append a new one. -/
def insertKV (m : List (Nat × Record)) (k : Nat) (v : Record) : List (Nat × Record) :=
  if m.any (fun p => p.1 == k) then m.map (fun p => if p.1 == k then (k, v) else p)
  else m ++ [(k, v)]

/-- `records_to_map`: index records by id, later records overwriting earlier
ones (`HashMap::from_iter` is last-write-wins). -/
def recordsToMap (records : List Record) : List (Nat × Record) :=
  records.foldl (fun m r => insertKV m r.id r) []

/-- `HashMap::get` on the id index. -/
def lookupKV (m : List (Nat × Record)) (k : Nat) : Option Record :=
  (m.find? fun p => p.1 == k).map Prod.snd

/-- The key set of the id index (`records1.keys()`). -/
def mapKeys (m : List (Nat × Record)) : Finset Nat :=
  (m.map Prod.fst).toFinset

/-- Ids only in the first collection (`keys1.difference(&keys2)`). -/
def diffOnly1 (rs1 rs2 : List Record) : Finset Nat :=
  mapKeys (recordsToMap rs1) \ mapKeys (recordsToMap rs2)

/-- Ids only in the second collection (`keys2.difference(&keys1)`). -/
def diffOnly2 (rs1 rs2 : List Record) : Finset Nat :=
  mapKeys (recordsToMap rs2) \ mapKeys (recordsToMap rs1)

/-- Ids in both collections whose indexed records differ
(`in_both ... filter (records1.get(id) != records2.get(id))`). -/
def diffDifferent (rs1 rs2 : List Record) : Finset Nat :=
  (mapKeys (recordsToMap rs1) ∩ mapKeys (recordsToMap rs2)).filter
    fun id => lookupKV (recordsToMap rs1) id ≠ lookupKV (recordsToMap rs2) id

/-- The comparer prints "Transactions are the same" exactly when all three
sets are empty. -/
def diffIdentical (rs1 rs2 : List Record) : Prop :=
  diffOnly1 rs1 rs2 = ∅ ∧ diffOnly2 rs1 rs2 = ∅ ∧ diffDifferent rs1 rs2 = ∅

instance (rs1 rs2 : List Record) : Decidable (diffIdentical rs1 rs2) :=
  inferInstanceAs (Decidable (_ ∧ _ ∧ _))

/-- The last record of `rs` carrying id `a`, the reference semantics of
last-write-wins indexing. -/
def lastById (rs : List Record) (a : Nat) : Option Record :=
  (rs.filter fun r => r.id == a).getLast?

theorem anyKeyNat_iff (m : List (Nat × Record)) (k : Nat) :
    (m.any fun p => p.1 == k) = true ↔ k ∈ m.map Prod.fst := by
  simp [List.any_eq_true, List.mem_map, beq_iff_eq]

theorem mem_mapKeys_insertKV (m : List (Nat × Record)) (k : Nat) (v : Record) (a : Nat) :
    a ∈ mapKeys (insertKV m k v) ↔ a ∈ mapKeys m ∨ a = k := by
  unfold insertKV mapKeys
  by_cases h : (m.any fun p => p.1 == k) = true
  · rw [if_pos h]
    have hkeys : (m.map fun p => if p.1 == k then (k, v) else p).map Prod.fst =
        m.map Prod.fst := by
      rw [List.map_map]
      apply List.map_congr_left
      intro p _
      by_cases hpk : p.1 = k
      · simp [hpk]
      · simp [hpk]
    rw [hkeys]
    have hk : k ∈ m.map Prod.fst := (anyKeyNat_iff m k).mp h
    simp only [List.mem_toFinset]
    exact ⟨Or.inl, fun hor => hor.elim id (fun he => he ▸ hk)⟩
  · rw [if_neg h]
    simp [List.mem_toFinset]

theorem mem_mapKeys_foldl (rs : List Record) : ∀ (m : List (Nat × Record)) (a : Nat),
    a ∈ mapKeys (rs.foldl (fun m r => insertKV m r.id r) m) ↔
      a ∈ mapKeys m ∨ ∃ r ∈ rs, r.id = a := by
  induction rs with
  | nil => intro m a; simp
  | cons r t ih =>
    intro m a
    show a ∈ mapKeys (t.foldl _ (insertKV m r.id r)) ↔ _
    rw [ih (insertKV m r.id r) a, mem_mapKeys_insertKV]
    constructor
    · rintro ((h | h) | ⟨x, hx, hid⟩)
      · exact Or.inl h
      · exact Or.inr ⟨r, by simp, h.symm⟩
      · exact Or.inr ⟨x, by simp [hx], hid⟩
    · rintro (h | ⟨x, hx, hid⟩)
      · exact Or.inl (Or.inl h)
      · rcases List.mem_cons.mp hx with hx | hx
        · exact Or.inl (Or.inr (by rw [← hx]; exact hid.symm))
        · exact Or.inr ⟨x, hx, hid⟩

/-- Key membership in the id index: exactly the ids occurring in the input. -/
theorem mem_mapKeys_recordsToMap (rs : List Record) (a : Nat) :
    a ∈ mapKeys (recordsToMap rs) ↔ ∃ r ∈ rs, r.id = a := by
  unfold recordsToMap
  rw [mem_mapKeys_foldl]
  simp [mapKeys]

theorem find?_replace_self (m : List (Nat × Record)) (k : Nat) (v : Record)
    (h : (m.any fun p => p.1 == k) = true) :
    (m.map fun p => if p.1 == k then (k, v) else p).find? (fun p => p.1 == k) =
      some (k, v) := by
  induction m with
  | nil => cases h
  | cons p t ih =>
    simp only [List.map_cons]
    by_cases hpk : p.1 = k
    · rw [if_pos (by simpa using hpk), List.find?_cons_of_pos _ (by simp)]
    · rw [if_neg (by simpa using hpk), List.find?_cons_of_neg _ (by simpa using hpk)]
      apply ih
      simp only [List.any_cons, Bool.or_eq_true] at h
      rcases h with h | h
      · exact absurd h (by simpa using hpk)
      · exact h

theorem find?_replace_other (m : List (Nat × Record)) (k : Nat) (v : Record) (a : Nat)
    (hne : a ≠ k) :
    (m.map fun p => if p.1 == k then (k, v) else p).find? (fun p => p.1 == a) =
      m.find? (fun p => p.1 == a) := by
  induction m with
  | nil => rfl
  | cons p t ih =>
    simp only [List.map_cons]
    by_cases hpk : p.1 = k
    · rw [if_pos (by simpa using hpk),
        List.find?_cons_of_neg _ (by simpa using fun h => hne h.symm),
        List.find?_cons_of_neg _ (by
          rw [hpk]
          simpa using fun h => hne h.symm)]
      exact ih
    · rw [if_neg (by simpa using hpk)]
      by_cases hpa : p.1 = a
      · rw [List.find?_cons_of_pos _ (by simpa using hpa),
          List.find?_cons_of_pos _ (by simpa using hpa)]
      · rw [List.find?_cons_of_neg _ (by simpa using hpa),
          List.find?_cons_of_neg _ (by simpa using hpa)]
        exact ih

/-- `insertKV` overwrites the binding of `k` and leaves other keys alone. -/
theorem lookup_insertKV (m : List (Nat × Record)) (k : Nat) (v : Record) (a : Nat) :
    lookupKV (insertKV m k v) a = if a = k then some v else lookupKV m a := by
  unfold insertKV lookupKV
  by_cases h : (m.any fun p => p.1 == k) = true
  · rw [if_pos h]
    by_cases hak : a = k
    · subst hak
      rw [if_pos rfl, find?_replace_self m a v h]
      rfl
    · rw [if_neg hak, find?_replace_other m k v a hak]
  · rw [if_neg h, List.find?_append]
    by_cases hak : a = k
    · subst hak
      have hnone : m.find? (fun p => p.1 == a) = none := by
        rw [List.find?_eq_none]
        intro p hp hbe
        exact h (List.any_eq_true.mpr ⟨p, hp, hbe⟩)
      rw [hnone, if_pos rfl]
      show (([(a, v)].find? fun p => p.1 == a).map Prod.snd) = some v
      rw [List.find?_cons_of_pos _ (by simp)]
      rfl
    · rw [if_neg hak]
      have hnone2 : [(k, v)].find? (fun p => p.1 == a) = none := by
        rw [List.find?_eq_none]
        intro p hp
        simp only [List.mem_singleton] at hp
        subst hp
        simpa using fun h => hak h.symm
      rw [hnone2, Option.or_none]

theorem getLast?_cons_or {α : Type} (x : α) (l : List α) :
    (x :: l).getLast? = l.getLast?.or (some x) := by
  cases l with
  | nil => rfl
  | cons y t =>
    rw [List.getLast?_cons_cons]
    cases hg : (y :: t).getLast? with
    | none => exact absurd (List.getLast?_eq_none_iff.mp hg) (by simp)
    | some z => rfl

theorem lookup_foldl (rs : List Record) : ∀ (m : List (Nat × Record)) (a : Nat),
    lookupKV (rs.foldl (fun m r => insertKV m r.id r) m) a =
      (lastById rs a).or (lookupKV m a) := by
  induction rs with
  | nil => intro m a; rfl
  | cons r t ih =>
    intro m a
    show lookupKV (t.foldl _ (insertKV m r.id r)) a = _
    rw [ih (insertKV m r.id r) a, lookup_insertKV]
    unfold lastById
    rw [List.filter_cons]
    by_cases hra : r.id = a
    · rw [if_pos hra.symm, if_pos (show (r.id == a) = true by simpa using hra),
        getLast?_cons_or, Option.or_assoc]
      rfl
    · rw [if_neg (fun h => hra h.symm),
        if_neg (show ¬(r.id == a) = true by simpa using hra)]

/-- The id index realizes last-write-wins: lookup returns the last record of
the input list with the given id. -/
theorem lookupKV_recordsToMap (rs : List Record) (a : Nat) :
    lookupKV (recordsToMap rs) a = lastById rs a := by
  unfold recordsToMap
  rw [lookup_foldl]
  show (lastById rs a).or none = _
  rw [Option.or_none]

/-! ## Length-field independence and truncation of the binary format -/

/-- Two streams that differ only in the 4-byte record-length field of
well-segmented frames (self-consistent in the description length, so the
frames parse in lockstep). -/
inductive LenEquiv : List Nat → List Nat → Prop where
  | refl (s : List Nat) : LenEquiv s s
  | frame (l1 l2 id8 fu tu am ts dn desc r1 r2 : List Nat) (tg st : Nat)
      (hl1 : l1.length = 4) (hl2 : l2.length = 4) (hid : id8.length = 8)
      (hfu : fu.length = 8) (htu : tu.length = 8) (ham : am.length = 8)
      (hts : ts.length = 8) (hdn : dn.length = 4)
      (hdesc : desc.length = natFromBeBytes dn) (htail : LenEquiv r1 r2) :
      LenEquiv
        (binHeader ++ (l1 ++ (id8 ++ ([tg] ++ (fu ++ (tu ++ (am ++ (ts ++
          ([st] ++ (dn ++ (desc ++ r1)))))))))))
        (binHeader ++ (l2 ++ (id8 ++ ([tg] ++ (fu ++ (tu ++ (am ++ (ts ++
          ([st] ++ (dn ++ (desc ++ r2)))))))))))

/-- The frame loop never reads the record-length field's value. -/
theorem binReadRecords_lenEquiv {s1 s2 : List Nat} (h : LenEquiv s1 s2) :
    binReadRecords s1 = binReadRecords s2 := by
  induction h with
  | refl s => rfl
  | frame l1 l2 id8 fu tu am ts dn desc r1 r2 tg st hl1 hl2 hid hfu htu ham hts hdn
      hdesc htail ih =>
    rw [binReadRecords_eq, binReadRecords_eq,
      readFrame_frame l1 id8 fu tu am ts dn desc r1 tg st hl1 hid hfu htu ham hts hdn
        hdesc,
      readFrame_frame l2 id8 fu tu am ts dn desc r2 tg st hl2 hid hfu htu ham hts hdn
        hdesc,
      okBind, okBind]
    dsimp only [Option.elim]
    rw [ih]

theorem binDecode_lenEquiv {s1 s2 : List Nat} (h : LenEquiv s1 s2) :
    binDecode s1 = binDecode s2 := by
  unfold binDecode
  rw [binReadRecords_lenEquiv h]

theorem readN_short {n : Nat} {s : List Nat} (h : s.length < n) :
    readN n s = .error .BinaryReadError := by
  unfold readN
  rw [if_neg (by omega)]

theorem readN_split {n : Nat} {s : List Nat} (h : n ≤ s.length) :
    readN n s = .ok (s.take n, s.drop n) := by
  unfold readN
  rw [if_pos h]

/-- A stream that starts with a full magic header but ends before the fixed
fields or the declared description bytes are complete fails with
`BinaryReadError`. -/
theorem readFrame_short (s : List Nat) (hhdr : s.take 4 = binHeader)
    (hshort : s.length < 54 ∨
      (54 ≤ s.length ∧ s.length < 54 + natFromBeBytes ((s.drop 50).take 4))) :
    readFrame s = .error .BinaryReadError := by
  have h4 : 4 ≤ s.length := by
    by_contra hlt
    have : (s.take 4).length = s.length := by
      rw [List.length_take]
      omega
    rw [hhdr] at this
    simp only [binHeader] at this
    simp at this
    omega
  unfold readFrame
  rw [if_neg (by omega), if_pos hhdr]
  have hd4 : (s.drop 4).length = s.length - 4 := by simp
  by_cases c1 : (s.drop 4).length < 4
  · rw [readN_short c1]
    rfl
  rw [readN_split (by omega)]
  rw [okBind]
  dsimp only
  rw [List.drop_drop]
  by_cases c2 : (s.drop 8).length < 8
  · rw [readN_short (by simp at c2 ⊢; omega)]
    rfl
  rw [readN_split (by simp at c2 ⊢; omega), okBind]
  dsimp only
  rw [List.drop_drop]
  by_cases c3 : (s.drop 16).length < 1
  · rw [readN_short (by simp at c3 ⊢; omega)]
    rfl
  rw [readN_split (by simp at c3 ⊢; omega), okBind]
  dsimp only
  rw [List.drop_drop]
  by_cases c4 : (s.drop 17).length < 8
  · rw [readN_short (by simp at c4 ⊢; omega)]
    rfl
  rw [readN_split (by simp at c4 ⊢; omega), okBind]
  dsimp only
  rw [List.drop_drop]
  by_cases c5 : (s.drop 25).length < 8
  · rw [readN_short (by simp at c5 ⊢; omega)]
    rfl
  rw [readN_split (by simp at c5 ⊢; omega), okBind]
  dsimp only
  rw [List.drop_drop]
  by_cases c6 : (s.drop 33).length < 8
  · rw [readN_short (by simp at c6 ⊢; omega)]
    rfl
  rw [readN_split (by simp at c6 ⊢; omega), okBind]
  dsimp only
  rw [List.drop_drop]
  by_cases c7 : (s.drop 41).length < 8
  · rw [readN_short (by simp at c7 ⊢; omega)]
    rfl
  rw [readN_split (by simp at c7 ⊢; omega), okBind]
  dsimp only
  rw [List.drop_drop]
  by_cases c8 : (s.drop 49).length < 1
  · rw [readN_short (by simp at c8 ⊢; omega)]
    rfl
  rw [readN_split (by simp at c8 ⊢; omega), okBind]
  dsimp only
  rw [List.drop_drop]
  by_cases c9 : (s.drop 50).length < 4
  · rw [readN_short (by simp at c9 ⊢; omega)]
    rfl
  rw [readN_split (by simp at c9 ⊢; omega), okBind]
  dsimp only
  rw [List.drop_drop]
  have h54 : 54 ≤ s.length := by
    simp only [List.length_drop] at c9
    omega
  have hlen : (s.drop 54).length < natFromBeBytes ((s.drop 50).take 4) := by
    rcases hshort with hlt | ⟨_, hlt⟩
    · omega
    · simp only [List.length_drop]
      omega
  rw [readN_short hlen]
  rfl

/-! ## Error inventory: the declared-but-unused error variants -/

/-- Not one of the two declared-but-never-constructed binary errors. -/
def notDeclared (e : YpbankError) : Prop :=
  e ≠ .BinaryDescriptionTooLong ∧ e ≠ .BinaryRecordTooShort

theorem exceptBind_error {ε α β : Type} {x : Except ε α} {f : α → Except ε β} {e : ε}
    (h : x.bind f = .error e) : x = .error e ∨ ∃ a, x = .ok a ∧ f a = .error e := by
  cases x with
  | error e2 =>
    simp only [Except.bind] at h
    injection h with h
    exact Or.inl (by rw [h])
  | ok a => exact Or.inr ⟨a, rfl, h⟩

theorem exceptMap_error {ε α β : Type} {x : Except ε α} {f : α → β} {e : ε}
    (h : x.map f = .error e) : x = .error e := by
  cases x with
  | error e2 =>
    simp only [Except.map] at h
    injection h with h
    rw [h]
  | ok a => exact absurd h (by simp [Except.map])

theorem readN_error {n : Nat} {s : List Nat} {e : YpbankError}
    (h : readN n s = .error e) : e = .BinaryReadError := by
  unfold readN at h
  split at h
  · cases h
  · injection h with h
    exact h.symm

theorem readFrame_error {s : List Nat} {e : YpbankError} (h : readFrame s = .error e) :
    e = .BinaryReadError ∨ e = .BinaryUnexpectedValue := by
  unfold readFrame at h
  split at h
  · cases h
  · split at h
    · rcases exceptBind_error h with h | ⟨p1, _, h⟩
      · exact Or.inl (readN_error h)
      rcases exceptBind_error h with h | ⟨p2, _, h⟩
      · exact Or.inl (readN_error h)
      rcases exceptBind_error h with h | ⟨p3, _, h⟩
      · exact Or.inl (readN_error h)
      rcases exceptBind_error h with h | ⟨p4, _, h⟩
      · exact Or.inl (readN_error h)
      rcases exceptBind_error h with h | ⟨p5, _, h⟩
      · exact Or.inl (readN_error h)
      rcases exceptBind_error h with h | ⟨p6, _, h⟩
      · exact Or.inl (readN_error h)
      rcases exceptBind_error h with h | ⟨p7, _, h⟩
      · exact Or.inl (readN_error h)
      rcases exceptBind_error h with h | ⟨p8, _, h⟩
      · exact Or.inl (readN_error h)
      rcases exceptBind_error h with h | ⟨p9, _, h⟩
      · exact Or.inl (readN_error h)
      rcases exceptBind_error h with h | ⟨p10, _, h⟩
      · exact Or.inl (readN_error h)
      cases h
    · injection h with h
      exact Or.inr h.symm

theorem binReadLoopFuel_error : ∀ (fuel : Nat) (s : List Nat) (e : YpbankError),
    binReadLoopFuel fuel s = .error e →
    e = .BinaryReadError ∨ e = .BinaryUnexpectedValue := by
  intro fuel
  induction fuel with
  | zero =>
    intro s e h
    injection h with h
    exact Or.inl h.symm
  | succ fuel ih =>
    intro s e h
    rcases exceptBind_error h with h | ⟨res, _, h⟩
    · exact readFrame_error h
    · cases res with
      | none => exact absurd h (by simp [Option.elim])
      | some p =>
        exact ih p.2 e
          (exceptMap_error (show (binReadLoopFuel fuel p.2).map (p.1 :: ·) = .error e
            from h))

theorem binTryInto_error {br : BinRecord} {e : YpbankError}
    (h : binTryInto br = .error e) : e = .BinaryUnexpectedValue := by
  unfold binTryInto at h
  rcases exceptBind_error h with h | ⟨rt, _, h⟩
  · split at h
    · cases h
    · cases h
    · cases h
    · injection h with h
      exact h.symm
  rcases exceptBind_error h with h | ⟨st, _, h⟩
  · split at h
    · cases h
    · cases h
    · cases h
    · injection h with h
      exact h.symm
  rcases exceptBind_error h with h | ⟨d, _, h⟩
  · split at h
    · cases h
    · injection h with h
      exact h.symm
  · cases h

theorem exceptMapM_error {α β : Type} {f : α → Except YpbankError β} :
    ∀ {l : List α} {e : YpbankError},
    exceptMapM f l = .error e → ∃ a, f a = .error e := by
  intro l
  induction l with
  | nil => intro e h; cases h
  | cons a t ih =>
    intro e h
    unfold exceptMapM at h
    rcases exceptBind_error h with h | ⟨b, _, h⟩
    · exact ⟨a, h⟩
    · exact ih (exceptMap_error h)

/-- The binary decoder only ever fails with `BinaryReadError` or
`BinaryUnexpectedValue`. -/
theorem binDecode_error {s : List Nat} {e : YpbankError}
    (h : binDecode s = .error e) :
    e = .BinaryReadError ∨ e = .BinaryUnexpectedValue := by
  unfold binDecode at h
  rcases exceptBind_error h with h | ⟨brs, _, h⟩
  · exact binReadLoopFuel_error _ _ _ h
  · obtain ⟨br, hbr⟩ := exceptMapM_error h
    exact Or.inr (binTryInto_error hbr)

theorem fieldValueE_error {m : List (String × String)} {k : String} {e : YpbankError}
    (h : fieldValueE m k = .error e) : notDeclared e := by
  unfold fieldValueE at h
  split at h
  · cases h
  · injection h with h
    rw [← h]
    exact ⟨by simp, by simp⟩

theorem parseFieldU64_error {m : List (String × String)} {k : String} {e : YpbankError}
    (h : parseFieldU64 m k = .error e) : notDeclared e := by
  unfold parseFieldU64 at h
  rcases exceptBind_error h with h | ⟨v, _, h⟩
  · exact fieldValueE_error h
  · split at h
    · cases h
    · injection h with h
      rw [← h]
      exact ⟨by simp, by simp⟩

theorem textTryInto_error {m : List (String × String)} {e : YpbankError}
    (h : textTryInto m = .error e) : notDeclared e := by
  unfold textTryInto at h
  rcases exceptBind_error h with h | ⟨v1, _, h⟩
  · exact parseFieldU64_error h
  rcases exceptBind_error h with h | ⟨v2, _, h⟩
  · exact parseFieldU64_error h
  rcases exceptBind_error h with h | ⟨v3, _, h⟩
  · exact parseFieldU64_error h
  rcases exceptBind_error h with h | ⟨v4, _, h⟩
  · rcases exceptBind_error h with h | ⟨v, _, h⟩
    · exact fieldValueE_error h
    · split at h
      · cases h
      · cases h
      · cases h
      · injection h with h
        rw [← h]
        exact ⟨by simp, by simp⟩
  rcases exceptBind_error h with h | ⟨v5, _, h⟩
  · exact parseFieldU64_error h
  rcases exceptBind_error h with h | ⟨v6, _, h⟩
  · exact parseFieldU64_error h
  rcases exceptBind_error h with h | ⟨v7, _, h⟩
  · rcases exceptBind_error h with h | ⟨v, _, h⟩
    · exact fieldValueE_error h
    · split at h
      · cases h
      · cases h
      · cases h
      · injection h with h
        rw [← h]
        exact ⟨by simp, by simp⟩
  rcases exceptBind_error h with h | ⟨v8, _, h⟩
  · rcases exceptBind_error h with h | ⟨v, _, h⟩
    · exact fieldValueE_error h
    · split at h
      · cases h
      · injection h with h
        rw [← h]
        exact ⟨by simp, by simp⟩
  · cases h

theorem textRecLoop_error : ∀ (lines : List String) (m : List (String × String))
    (e : YpbankError), textRecLoop lines m = .error e → notDeclared e := by
  intro lines
  induction lines with
  | nil =>
    intro m e h
    unfold textRecLoop at h
    split at h
    · cases h
    · exact textTryInto_error (exceptMap_error h)
  | cons l t ih =>
    intro m e h
    rw [textRecLoop.eq_def] at h
    dsimp only at h
    by_cases hemp : l = ""
    · rw [if_pos hemp] at h
      rcases exceptBind_error h with h | ⟨r, _, h⟩
      · exact textTryInto_error h
      · exact ih [] e (exceptMap_error h)
    · rw [if_neg hemp] at h
      by_cases hh : l.data.head? = some '#'
      · rw [if_pos hh] at h
        exact ih m e h
      · rw [if_neg hh] at h
        cases hsp : splitColonSpace l.data with
        | none =>
          rw [hsp] at h
          injection h with h
          rw [← h]
          exact ⟨by simp, by simp⟩
        | some p =>
          rw [hsp] at h
          dsimp only at h
          split at h
          · injection h with h
            rw [← h]
            exact ⟨by simp, by simp⟩
          · exact ih _ e h

/-- The text decoder only ever fails with `Text*` errors. -/
theorem textReadAll_error {s : String} {e : YpbankError}
    (h : textReadAll s = .error e) : notDeclared e :=
  textRecLoop_error _ _ _ h

theorem csvField_error {header row : List String} {name : String} {e : YpbankError}
    (h : csvField header row name = .error e) : notDeclared e := by
  unfold csvField at h
  split at h
  · split at h
    · cases h
    · injection h with h
      rw [← h]
      exact ⟨by simp, by simp⟩
  · injection h with h
    rw [← h]
    exact ⟨by simp, by simp⟩

theorem csvFieldU64_error {header row : List String} {name : String} {e : YpbankError}
    (h : csvFieldU64 header row name = .error e) : notDeclared e := by
  unfold csvFieldU64 at h
  rcases exceptBind_error h with h | ⟨v, _, h⟩
  · exact csvField_error h
  · split at h
    · cases h
    · injection h with h
      rw [← h]
      exact ⟨by simp, by simp⟩

theorem csvTryInto_error {cr : CsvRecord} {e : YpbankError}
    (h : csvTryInto cr = .error e) : notDeclared e := by
  unfold csvTryInto at h
  rcases exceptBind_error h with h | ⟨rt, _, h⟩
  · split at h
    · cases h
    · cases h
    · cases h
    · injection h with h
      rw [← h]
      exact ⟨by simp, by simp⟩
  rcases exceptBind_error h with h | ⟨st, _, h⟩
  · split at h
    · cases h
    · cases h
    · cases h
    · injection h with h
      rw [← h]
      exact ⟨by simp, by simp⟩
  · cases h

theorem csvRowToRecord_error {header row : List String} {e : YpbankError}
    (h : csvRowToRecord header row = .error e) : notDeclared e := by
  unfold csvRowToRecord at h
  split at h
  · rcases exceptBind_error h with h | ⟨v1, _, h⟩
    · exact csvFieldU64_error h
    rcases exceptBind_error h with h | ⟨v2, _, h⟩
    · exact csvField_error h
    rcases exceptBind_error h with h | ⟨v3, _, h⟩
    · exact csvFieldU64_error h
    rcases exceptBind_error h with h | ⟨v4, _, h⟩
    · exact csvFieldU64_error h
    rcases exceptBind_error h with h | ⟨v5, _, h⟩
    · exact csvFieldU64_error h
    rcases exceptBind_error h with h | ⟨v6, _, h⟩
    · exact csvFieldU64_error h
    rcases exceptBind_error h with h | ⟨v7, _, h⟩
    · exact csvField_error h
    rcases exceptBind_error h with h | ⟨v8, _, h⟩
    · exact csvField_error h
    exact csvTryInto_error h
  · injection h with h
    rw [← h]
    exact ⟨by simp, by simp⟩

/-- The CSV decoder only ever fails with `Csv*` errors. -/
theorem csvDecode_error {s : String} {e : YpbankError}
    (h : csvDecode s = .error e) : notDeclared e := by
  unfold csvDecode at h
  split at h
  · cases h
  · obtain ⟨row, hrow⟩ := exceptMapM_error h
    exact csvRowToRecord_error hrow

/-! ## A `2^32`-byte description overflows the `u32` length field -/

theorem flatMap_replicate_a (n : Nat) :
    (List.replicate n 'a').flatMap utf8EncodeChar = List.replicate n 97 := by
  induction n with
  | zero => rfl
  | succ n ih =>
    rw [List.replicate_succ, List.flatMap_cons, ih,
      show utf8EncodeChar 'a' = [97] from by decide, List.replicate_succ]
    rfl

/-- A record whose description is `n` copies of the ASCII letter `a`. -/
def aRec (n : Nat) : Record :=
  { id := 0, record_type := .Deposit 0, amount := 0, timestamp := 0,
    status := .Success, description := String.mk (List.replicate n 'a') }

theorem strToUtf8_replicate_a (n : Nat) :
    strToUtf8 (String.mk (List.replicate n 'a')) = List.replicate n 97 :=
  flatMap_replicate_a n

theorem readFrame_replicate97 (n : Nat) (h4 : 4 ≤ n) :
    readFrame (List.replicate n 97) = .error .BinaryUnexpectedValue := by
  unfold readFrame
  rw [if_neg (by simp only [List.length_replicate]; omega),
    if_neg (by rw [List.take_replicate, Nat.min_eq_left h4]; decide)]

theorem binDecode_aRec (n : Nat) (h4 : 4 ≤ n) (hmod : n % 2 ^ 32 = 0) :
    binDecode (binEncode [aRec n]) = .error .BinaryUnexpectedValue := by
  have hdesc : strToUtf8 (aRec n).description = List.replicate n 97 :=
    strToUtf8_replicate_a n
  have hfr : binEncode [aRec n] = binHeader ++
      (natToBeBytes 4 (binWriteBody (BinRecord.fromRecord (aRec n))).length ++
      (natToBeBytes 8 0 ++ ([0] ++ (natToBeBytes 8 0 ++ (natToBeBytes 8 0 ++
      (natToBeBytes 8 0 ++ (natToBeBytes 8 0 ++ ([0] ++ (natToBeBytes 4 n ++
      (List.replicate n 97)))))))))) := by
    show binEncodeRecord (aRec n) ++ [] = _
    rw [List.append_nil]
    unfold binEncodeRecord
    rw [show binWriteBody (BinRecord.fromRecord (aRec n)) =
      natToBeBytes 8 0 ++ ([0] ++ (natToBeBytes 8 0 ++ (natToBeBytes 8 0 ++
      (natToBeBytes 8 0 ++ (natToBeBytes 8 0 ++ ([0] ++ (natToBeBytes 4 n ++
      (List.replicate n 97)))))))) from by
        unfold binWriteBody BinRecord.fromRecord
        rw [hdesc]
        simp only [aRec, recordTypeFlat, statusTag, List.length_replicate,
          List.append_assoc]]
    simp only [List.append_assoc]
  have happ := readFrame_frame
    (natToBeBytes 4 (binWriteBody (BinRecord.fromRecord (aRec n))).length)
    (natToBeBytes 8 0) (natToBeBytes 8 0) (natToBeBytes 8 0) (natToBeBytes 8 0)
    (natToBeBytes 8 0) (natToBeBytes 4 n) [] (List.replicate n 97) 0 0
    (by simp) (by simp) (by simp) (by simp) (by simp) (by simp) (by simp)
    (by rw [natFromBeBytes_natToBeBytes, show (256 : Nat) ^ 4 = 2 ^ 32 from by
          norm_num, hmod]
        rfl)
  rw [List.nil_append] at happ
  unfold binDecode
  rw [binReadRecords_eq, hfr, happ, okBind]
  dsimp only [Option.elim]
  rw [binReadRecords_eq, readFrame_replicate97 n h4]
  rfl

/-! ## Remaining structural consequences -/

/-- A header-matching but truncated stream fails the whole decode. -/
theorem binDecode_short (s : List Nat) (hhdr : s.take 4 = binHeader)
    (hshort : s.length < 54 ∨
      (54 ≤ s.length ∧ s.length < 54 + natFromBeBytes ((s.drop 50).take 4))) :
    binDecode s = .error .BinaryReadError := by
  unfold binDecode
  rw [binReadRecords_eq, readFrame_short s hhdr hshort]
  rfl

/-- A record-type tag outside `{0, 1, 2}` is rejected before any `Record` is
constructed. -/
theorem binTryInto_bad_tag (br : BinRecord) (h : 3 ≤ br.record_type) :
    binTryInto br = .error .BinaryUnexpectedValue := by
  obtain ⟨k, hk⟩ : ∃ k, br.record_type = k + 3 := ⟨br.record_type - 3, by omega⟩
  unfold binTryInto
  rw [hk]
  rfl

/-- A status tag outside `{0, 1, 2}` is likewise rejected. -/
theorem binTryInto_bad_status (br : BinRecord) (h : 3 ≤ br.status) :
    binTryInto br = .error .BinaryUnexpectedValue := by
  by_cases ht : 3 ≤ br.record_type
  · exact binTryInto_bad_tag br ht
  · obtain ⟨k, hk⟩ : ∃ k, br.status = k + 3 := ⟨br.status - 3, by omega⟩
    have htag : br.record_type = 0 ∨ br.record_type = 1 ∨ br.record_type = 2 := by
      omega
    unfold binTryInto
    rw [hk]
    rcases htag with h0 | h1 | h2
    · rw [h0]
      rfl
    · rw [h1]
      rfl
    · rw [h2]
      rfl

/-- A whole stream holding one well-segmented frame with a bad record-type tag
decodes to `BinaryUnexpectedValue`. -/
theorem binDecode_bad_tag_frame (lenb id8 fu tu am ts dn desc : List Nat) (tg st : Nat)
    (hlen : lenb.length = 4) (hid : id8.length = 8) (hfu : fu.length = 8)
    (htu : tu.length = 8) (ham : am.length = 8) (hts : ts.length = 8)
    (hdn : dn.length = 4) (hdesc : desc.length = natFromBeBytes dn) (htag : 3 ≤ tg) :
    binDecode (binHeader ++ (lenb ++ (id8 ++ ([tg] ++ (fu ++ (tu ++ (am ++ (ts ++
      ([st] ++ (dn ++ (desc ++ []))))))))))) = .error .BinaryUnexpectedValue := by
  unfold binDecode
  rw [binReadRecords_eq,
    readFrame_frame lenb id8 fu tu am ts dn desc [] tg st hlen hid hfu htu ham hts hdn
      hdesc, okBind]
  dsimp only [Option.elim]
  rw [show binReadRecords ([] : List Nat) = Except.ok [] from rfl]
  show exceptMapM binTryInto [{ id := id8, record_type := tg,
                                from_user_id := fu, to_user_id := tu,
                                amount := am, timestamp := ts, status := st,
                                description := desc }] = _
  unfold exceptMapM
  rw [binTryInto_bad_tag _ htag]
  rfl

/-- The lines of the text writer's output: per record, one rendered line per
field of the enumerated map, then one blank line. -/
theorem splitLines_textWriteAll
    (enum : List (String × String) → List (String × String))
    (henum : ∀ m, (enum m).Perm m) (rs : List Record)
    (h : ∀ r ∈ rs, '\n' ∉ r.description.data) :
    splitLines (textWriteAll enum rs) =
      rs.flatMap fun r =>
        ((enum (textFields r)).map fun p => String.mk (textLineChars p)) ++ [""] := by
  unfold textWriteAll splitLines
  show linesAux (rs.flatMap fun r =>
    ((enum (textFields r)).flatMap fun p => textLineChars p ++ ['\n']) ++ ['\n']) [] = _
  rw [writeChars_shape, linesAux_render _ (by
    intro l hl
    simp only [List.mem_flatMap] at hl
    obtain ⟨r, hr, hl⟩ := hl
    rcases List.mem_append.mp hl with hl | hl
    · obtain ⟨p, hp, rfl⟩ := List.mem_map.mp hl
      have hmem : p ∈ textFields r := ((henum (textFields r)).mem_iff).mp hp
      exact textLineChars_good p (textFields_keys_good r p hmem).2.2.2
        (textFields_values_good r (h r hr) p hmem)
    · simp only [List.mem_singleton] at hl
      subst hl
      exact ⟨by simp, by simp⟩)]
  simp only [List.map_flatMap, List.map_append, List.map_map]
  rfl

/-- A file of comment lines only decodes to no records. -/
theorem textReadAll_comments (s : String)
    (h : ∀ l ∈ splitLines s, l.data.head? = some '#') :
    textReadAll s = .ok [] := by
  unfold textReadAll
  have hc := textRecLoop_comments_prefix (splitLines s) [] [] h
  rw [List.append_nil] at hc
  rw [hc]
  rfl

theorem mem_diffOnly1 (rs1 rs2 : List Record) (a : Nat) :
    a ∈ diffOnly1 rs1 rs2 ↔ (∃ r ∈ rs1, r.id = a) ∧ ¬∃ r ∈ rs2, r.id = a := by
  unfold diffOnly1
  rw [Finset.mem_sdiff, mem_mapKeys_recordsToMap, mem_mapKeys_recordsToMap]

theorem mem_diffOnly2 (rs1 rs2 : List Record) (a : Nat) :
    a ∈ diffOnly2 rs1 rs2 ↔ (∃ r ∈ rs2, r.id = a) ∧ ¬∃ r ∈ rs1, r.id = a := by
  unfold diffOnly2
  rw [Finset.mem_sdiff, mem_mapKeys_recordsToMap, mem_mapKeys_recordsToMap]

theorem mem_diffDifferent (rs1 rs2 : List Record) (a : Nat) :
    a ∈ diffDifferent rs1 rs2 ↔
      ((∃ r ∈ rs1, r.id = a) ∧ (∃ r ∈ rs2, r.id = a)) ∧
        lastById rs1 a ≠ lastById rs2 a := by
  unfold diffDifferent
  rw [Finset.mem_filter, Finset.mem_inter, mem_mapKeys_recordsToMap,
    mem_mapKeys_recordsToMap, lookupKV_recordsToMap, lookupKV_recordsToMap]

/-! ## Concrete inputs used to instantiate the properties -/

/-- A small, fully representable record. -/
def sampleRec : Record :=
  { id := 1, record_type := .Transfer 2 3, amount := 500, timestamp := 1700000000,
    status := .Pending, description := "Pay" }

/-- The record of the text-quoting scenario: a description with an embedded
comma. -/
def payRec : Record :=
  { id := 7, record_type := .Deposit 42, amount := 1250, timestamp := 1699999999,
    status := .Success, description := "Pay, invoice #1" }

/-- A `Deposit` frame body whose (ignored) `from_user_id` bytes are a
parameter. -/
def mkDepositBin (fu : List Nat) : BinRecord :=
  { id := natToBeBytes 8 1, record_type := 0, from_user_id := fu,
    to_user_id := natToBeBytes 8 2, amount := natToBeBytes 8 3,
    timestamp := natToBeBytes 8 4, status := 0, description := [] }

/-- A `DEPOSIT` CSV row whose (ignored) `from_user_id` is a parameter. -/
def mkDepositCsv (f : Nat) : CsvRecord :=
  { id := 1, record_type := "DEPOSIT", from_user_id := f, to_user_id := 2,
    amount := 3, timestamp := 4, status := "SUCCESS", description := "x" }

/-- The record both deposit rows above convert to, whatever the absent
identifier holds. -/
def depRec (desc : String) : Record :=
  { id := 1, record_type := .Deposit 2, amount := 3, timestamp := 4,
    status := .Success, description := desc }

/-- One well-segmented frame (empty description) whose record-length field is
the parameter. -/
def lenFrame (l : List Nat) : List Nat :=
  binHeader ++ (l ++ (natToBeBytes 8 1 ++ ([0] ++ (natToBeBytes 8 0 ++
    (natToBeBytes 8 2 ++ (natToBeBytes 8 3 ++ (natToBeBytes 8 4 ++ ([0] ++
    (natToBeBytes 4 0 ++ (([] : List Nat) ++ ([] : List Nat)))))))))))

theorem lenFrame_lenEquiv : LenEquiv (lenFrame [9, 9, 9, 9]) (lenFrame [0, 0, 0, 46]) :=
  LenEquiv.frame [9, 9, 9, 9] [0, 0, 0, 46] (natToBeBytes 8 1) (natToBeBytes 8 0)
    (natToBeBytes 8 2) (natToBeBytes 8 3) (natToBeBytes 8 4) (natToBeBytes 4 0)
    [] [] [] 0 0 rfl rfl rfl rfl rfl rfl rfl rfl (by decide) (.refl [])

/-- The diff-engine example: collection A. -/
def exA : List Record :=
  [{ id := 1, record_type := .Deposit 0, amount := 10, timestamp := 0,
     status := .Success, description := "" },
   { id := 2, record_type := .Deposit 0, amount := 20, timestamp := 0,
     status := .Success, description := "" },
   { id := 3, record_type := .Deposit 0, amount := 30, timestamp := 0,
     status := .Success, description := "" }]

/-- The diff-engine example: collection B, record 2 differing in `amount`. -/
def exB : List Record :=
  [{ id := 2, record_type := .Deposit 0, amount := 21, timestamp := 0,
     status := .Success, description := "" },
   { id := 3, record_type := .Deposit 0, amount := 30, timestamp := 0,
     status := .Success, description := "" },
   { id := 4, record_type := .Deposit 0, amount := 40, timestamp := 0,
     status := .Success, description := "" }]

/-- The canonical CSV header row. -/
def csvHeaderLine : String :=
  "TX_ID,TX_TYPE,FROM_USER_ID,TO_USER_ID,AMOUNT,TIMESTAMP,STATUS,DESCRIPTION"

/-! ## The claims -/

/-- C1: binary round-trip law, corrected. Encoding then decoding recovers every
record collection whose records are representable AND whose UTF-8 description
is shorter than `2^32` bytes; the second bound is necessary because the writer
truncates `description.len() as u32`. -/
theorem binary_roundtrip (rs : List Record)
    (h : ∀ r ∈ rs, r.representable ∧ (strToUtf8 r.description).length < 2 ^ 32) :
    binDecode (binEncode rs) = .ok rs :=
  binDecode_binEncode rs h

/-- Witness: the binary round trip at a concrete transfer record. -/
theorem binary_roundtrip_witness :
    binDecode (binEncode [sampleRec]) = .ok [sampleRec] :=
  binary_roundtrip [sampleRec] (by decide)

/-- C1 counterexample: a model-representable record whose description holds
`2^32` bytes encodes to a stream that no longer decodes to it — the length
field truncates to 0 and the description bytes are misread as a next frame. -/
theorem binary_roundtrip_counterexample :
    (aRec (2 ^ 32)).representable ∧
      binDecode (binEncode [aRec (2 ^ 32)]) ≠ .ok [aRec (2 ^ 32)] := by
  constructor
  · exact ⟨by norm_num [aRec], by norm_num [aRec], by norm_num [aRec],
      by norm_num [aRec, RecordType.u64ok]⟩
  · rw [binDecode_aRec (2 ^ 32) (by norm_num) (by norm_num)]
    exact fun hc => Except.noConfusion hc

/-- C2: empty inputs, corrected. Zero bytes (binary), an empty or header-only
CSV file, an empty text file and a comments-only text file all decode to no
records; but a text file holding a blank line does not — the blank line closes
an empty block whose conversion fails (see the counterexample). -/
theorem empty_input_decodes :
    binDecode [] = .ok [] ∧
    csvDecode "" = .ok [] ∧
    csvDecode csvHeaderLine = .ok [] ∧
    textReadAll "" = .ok [] ∧
    (∀ s : String, (∀ l ∈ splitLines s, l.data.head? = some '#') →
      textReadAll s = .ok []) :=
  ⟨by decide, by decide, by decide, by decide, textReadAll_comments⟩

/-- C2 counterexample: a text file of one blank line is all-blank, yet decoding
fails with `TextFieldNotFound "TX_ID"` instead of yielding no records. -/
theorem empty_input_counterexample :
    splitLines "\n" = [""] ∧
      textReadAll "\n" = .error (.TextFieldNotFound "TX_ID") :=
  ⟨by decide, by decide⟩

/-- C3: text writer block structure, corrected. The writer iterates a
`HashMap`, so the eight keys appear in an unspecified order, not necessarily
the documented one. What does hold, for every admissible enumeration: the
output is one block per record of eight `KEY: VALUE` lines whose keys are a
permutation of the documented eight, each block followed by exactly one blank
line, and the DESCRIPTION value is quoted unconditionally. -/
theorem text_writer_blocks :
    (∀ enum : List (String × String) → List (String × String),
      (∀ m, (enum m).Perm m) → ∀ rs : List Record,
      (∀ r ∈ rs, '\n' ∉ r.description.data) →
      splitLines (textWriteAll enum rs) =
        rs.flatMap fun r =>
          ((enum (textFields r)).map fun p => String.mk (textLineChars p)) ++ [""]) ∧
    (∀ enum : List (String × String) → List (String × String),
      (∀ m, (enum m).Perm m) → ∀ r : Record,
      ((enum (textFields r)).map Prod.fst).Perm
        ["TX_ID", "TX_TYPE", "FROM_USER_ID", "TO_USER_ID", "AMOUNT", "TIMESTAMP",
         "STATUS", "DESCRIPTION"]) ∧
    (∀ r : Record, fieldValue? (textFields r) "DESCRIPTION" =
      some ("\x22" ++ r.description ++ "\x22")) := by
  refine ⟨splitLines_textWriteAll, ?_, fun r => rfl⟩
  intro enum henum r
  have hp := (henum (textFields r)).map Prod.fst
  rwa [textFields_keys] at hp

/-- C3 counterexample: reversal is an admissible map enumeration, and under it
the first emitted line is the DESCRIPTION line, not `TX_ID: ...` — the
documented fixed key order is not guaranteed. -/
theorem text_writer_order_counterexample :
    (∀ m : List (String × String), (List.reverse m).Perm m) ∧
      (splitLines (textWriteAll List.reverse [depRec "x"])).head? =
        some (String.mk (textLineChars ("DESCRIPTION", "\x22x\x22"))) ∧
      textWriteAll List.reverse [depRec "x"] ≠
        textWriteAll (fun m => m) [depRec "x"] :=
  ⟨fun m => List.reverse_perm m, by decide, by decide⟩

/-- C4: end-of-stream handling, corrected. A header-matching stream that ends
mid-frame fails the whole decode with a binary read error; but a stream ending
inside the 4-byte magic header itself is accepted — the reader breaks out and
returns the records decoded so far, silently swallowing 1 to 3 stray trailing
bytes (see the counterexample). -/
theorem binary_eof_truncation :
    (∀ (rs : List Record) (extra : List Nat),
      (∀ r ∈ rs, r.representable ∧ (strToUtf8 r.description).length < 2 ^ 32) →
      extra.length < 4 → binDecode (binEncode rs ++ extra) = .ok rs) ∧
    (∀ s : List Nat, s.take 4 = binHeader →
      (s.length < 54 ∨
        (54 ≤ s.length ∧ s.length < 54 + natFromBeBytes ((s.drop 50).take 4))) →
      binDecode s = .error .BinaryReadError) :=
  ⟨binDecode_binEncode_extra, binDecode_short⟩

/-- C4 counterexample: streams ending after 1 to 3 bytes of the expected magic
header decode successfully to the records read so far instead of failing. -/
theorem binary_eof_counterexample :
    binDecode [0x59] = .ok [] ∧ binDecode [0x59, 0x50] = .ok [] ∧
      binDecode [0x59, 0x50, 0x42] = .ok [] ∧
      binDecode (binEncode [sampleRec] ++ [0x59, 0x50, 0x42]) = .ok [sampleRec] :=
  ⟨by decide, by decide, by decide, by decide⟩

/-- C5: absent user ids, corrected. The encoders do serialize the absent
identifier as 0 (`recordTypeFlat`), but the decoders never check it: the
variant is built solely from the identifiers it carries, so the decoded
`Record` is the same whatever the absent flat field holds — including nonzero
values (see the counterexample). -/
theorem absent_user_id :
    (∀ t, recordTypeFlat (RecordType.Deposit t) = (0, 0, t)) ∧
    (∀ f, recordTypeFlat (RecordType.Withdrawal f) = (2, f, 0)) ∧
    (∀ f t, recordTypeFlat (RecordType.Transfer f t) = (1, f, t)) ∧
    (∀ fu : List Nat, binTryInto (mkDepositBin fu) = .ok (depRec "")) ∧
    (∀ f : Nat, csvTryInto (mkDepositCsv f) = .ok (depRec "x")) :=
  ⟨fun _ => rfl, fun _ => rfl, fun _ _ => rfl, fun _ => rfl, fun _ => rfl⟩

/-- C5 counterexample: a Deposit input whose flat `from_user_id` is 5, not 0,
still decodes successfully, in both the binary and the CSV converter. -/
theorem absent_user_id_counterexample :
    natFromBeBytes (mkDepositBin (natToBeBytes 8 5)).from_user_id = 5 ∧
      binTryInto (mkDepositBin (natToBeBytes 8 5)) = .ok (depRec "") ∧
      (mkDepositCsv 5).from_user_id = 5 ∧
      csvTryInto (mkDepositCsv 5) = .ok (depRec "x") :=
  ⟨by decide, by decide, by decide, by decide⟩

/-- C6: tag validation, confirmed. A record-type or status tag outside
`{0, 1, 2}` makes the binary conversion fail with `BinaryUnexpectedValue`
before any `Record` is built; a whole well-segmented frame with such a tag
fails the stream decode the same way; and a CSV row with `TX_TYPE` UNKNOWN
fails with `CsvUnexpectedValue "UNKNOWN"`. -/
theorem tag_validation :
    (∀ br : BinRecord, 3 ≤ br.record_type →
      binTryInto br = .error .BinaryUnexpectedValue) ∧
    (∀ br : BinRecord, 3 ≤ br.status →
      binTryInto br = .error .BinaryUnexpectedValue) ∧
    (∀ (lenb id8 fu tu am ts dn desc : List Nat) (tg st : Nat),
      lenb.length = 4 → id8.length = 8 → fu.length = 8 → tu.length = 8 →
      am.length = 8 → ts.length = 8 → dn.length = 4 →
      desc.length = natFromBeBytes dn → 3 ≤ tg →
      binDecode (binHeader ++ (lenb ++ (id8 ++ ([tg] ++ (fu ++ (tu ++ (am ++ (ts ++
        ([st] ++ (dn ++ (desc ++ []))))))))))) = .error .BinaryUnexpectedValue) ∧
    csvDecode (csvHeaderLine ++ "\n1,UNKNOWN,0,2,3,4,SUCCESS,x") =
      .error (.CsvUnexpectedValue "UNKNOWN") :=
  ⟨binTryInto_bad_tag, binTryInto_bad_status, binDecode_bad_tag_frame, by decide⟩

/-- C7: text round trip, confirmed. For representable records whose
descriptions embed no double quote and no newline, decoding the text writer's
output recovers the records exactly, under every admissible field enumeration
— including descriptions with embedded commas such as `Pay, invoice #1`. -/
theorem text_roundtrip (enum : List (String × String) → List (String × String))
    (henum : ∀ m, (enum m).Perm m) (rs : List Record)
    (h : ∀ r ∈ rs, r.representable ∧ '\x22' ∉ r.description.data ∧
      '\n' ∉ r.description.data) :
    textReadAll (textWriteAll enum rs) = .ok rs :=
  textReadAll_textWriteAll enum henum rs (fun r hr => ⟨(h r hr).1, (h r hr).2.2⟩)

/-- Witness: the text round trip at the `Pay, invoice #1` record, under the
identity enumeration. -/
theorem text_roundtrip_witness :
    textReadAll (textWriteAll (fun m => m) [payRec]) = .ok [payRec] :=
  text_roundtrip (fun m => m) (fun m => List.Perm.refl m) [payRec] (by decide)

/-- C8: duplicate keys, corrected. A key repeated inside one block always makes
the decode fail, and when the block's earlier lines are well-formed
`KEY: VALUE` lines the error is exactly `TextDuplicateField` naming the key;
but when an earlier line of the input is itself malformed, the decode fails
with that line's `TextUnableToParse` error instead (see the counterexample). -/
theorem text_duplicate_key :
    (∀ (pre mid rest : List String) (m : List (String × String)) (k v1 v2 : String),
      (∀ l ∈ mid, l ≠ "") → k.data ≠ [] → k.data.head? ≠ some '#' →
      ':' ∉ k.data →
      ∃ e, textRecLoop (pre ++ String.mk (textLineChars (k, v1)) ::
        (mid ++ String.mk (textLineChars (k, v2)) :: rest)) m = .error e) ∧
    (∀ (fields : List (String × String)) (k v2 : String) (rest : List String),
      k ∈ fields.map Prod.fst → (fields.map Prod.fst).Nodup →
      (∀ p ∈ fields, p.1.data ≠ [] ∧ p.1.data.head? ≠ some '#' ∧ ':' ∉ p.1.data) →
      k.data ≠ [] → k.data.head? ≠ some '#' → ':' ∉ k.data →
      textRecLoop ((fields.map fun p => String.mk (textLineChars p)) ++
        String.mk (textLineChars (k, v2)) :: rest) [] =
        .error (.TextDuplicateField k)) :=
  ⟨fun pre mid rest m k v1 v2 => textRecLoop_dup_fails pre m k v1 v2 mid rest,
   textRecLoop_dup_exact⟩

/-- C8 counterexample: the single block of this input repeats `TX_ID` on two
`KEY: VALUE` lines, yet the decode fails with `TextUnableToParse "X"` from the
earlier malformed line, not with a duplicate-field error naming `TX_ID`. -/
theorem text_duplicate_key_counterexample :
    textReadAll "X\nTX_ID: 1\nTX_ID: 1" = .error (.TextUnableToParse "X") ∧
      textReadAll "X\nTX_ID: 1\nTX_ID: 1" ≠
        .error (.TextDuplicateField "TX_ID") :=
  ⟨by decide, by decide⟩

/-- C9: diff engine, confirmed. Membership in the three computed sets is
exactly as specified, with last-write-wins indexing captured by `lastById`;
"identical" holds precisely when all three sets are empty; and the
`{1, 2, 3}` versus `{2, 3, 4}` example (record 2 differing in amount) yields
only-in-A `{1}`, only-in-B `{4}`, differing `{2}`. -/
theorem diff_engine :
    (∀ (rs1 rs2 : List Record) (a : Nat),
      a ∈ diffOnly1 rs1 rs2 ↔ (∃ r ∈ rs1, r.id = a) ∧ ¬∃ r ∈ rs2, r.id = a) ∧
    (∀ (rs1 rs2 : List Record) (a : Nat),
      a ∈ diffOnly2 rs1 rs2 ↔ (∃ r ∈ rs2, r.id = a) ∧ ¬∃ r ∈ rs1, r.id = a) ∧
    (∀ (rs1 rs2 : List Record) (a : Nat),
      a ∈ diffDifferent rs1 rs2 ↔
        ((∃ r ∈ rs1, r.id = a) ∧ (∃ r ∈ rs2, r.id = a)) ∧
          lastById rs1 a ≠ lastById rs2 a) ∧
    (∀ rs1 rs2 : List Record, diffIdentical rs1 rs2 ↔
      (diffOnly1 rs1 rs2 = ∅ ∧ diffOnly2 rs1 rs2 = ∅ ∧
        diffDifferent rs1 rs2 = ∅)) ∧
    (diffOnly1 exA exB = {1} ∧ diffOnly2 exA exB = {4} ∧
      diffDifferent exA exB = {2}) :=
  ⟨mem_diffOnly1, mem_diffOnly2, mem_diffDifferent, fun rs1 rs2 => Iff.rfl,
   by decide, by decide, by decide⟩

/-- C10: length-field independence, confirmed. Binary decode never reads a
frame's 4-byte record-length field — streams differing only in those bytes
decode identically (a nontrivial instance included) — and no codec decode ever
returns the declared `BinaryDescriptionTooLong` or `BinaryRecordTooShort`
errors, so an inconsistent declared length decodes like a consistent one. -/
theorem length_field_ignored :
    (∀ s1 s2 : List Nat, LenEquiv s1 s2 → binDecode s1 = binDecode s2) ∧
    (LenEquiv (lenFrame [9, 9, 9, 9]) (lenFrame [0, 0, 0, 46]) ∧
      lenFrame [9, 9, 9, 9] ≠ lenFrame [0, 0, 0, 46] ∧
      binDecode (lenFrame [9, 9, 9, 9]) = binDecode (lenFrame [0, 0, 0, 46])) ∧
    (∀ (s : List Nat) (e : YpbankError), binDecode s = .error e → notDeclared e) ∧
    (∀ (s : String) (e : YpbankError), textReadAll s = .error e → notDeclared e) ∧
    (∀ (s : String) (e : YpbankError), csvDecode s = .error e → notDeclared e) := by
  refine ⟨fun s1 s2 h => binDecode_lenEquiv h,
    ⟨lenFrame_lenEquiv, by decide, binDecode_lenEquiv lenFrame_lenEquiv⟩,
    fun s e h => ?_, fun s e h => textReadAll_error h, fun s e h => csvDecode_error h⟩
  rcases binDecode_error h with h1 | h1 <;> subst h1 <;>
    exact ⟨by decide, by decide⟩

end Ypbank
